import Mathlib

/-!
Verification development for the HiGHS MIP branch-and-bound search driver
(`src/mip/HighsSearch.cpp`) and the minimal C entry point
(`src/interfaces/MinimalAPI.cpp`).

The C++ code is shallowly embedded: `double` values that carry exact
branching arithmetic are modelled as `ℚ`; `-kHighsInf` / `+kHighsInf`
sentinels are modelled as `Option ℚ` (`none` being the infinite value);
machine integers are `ℤ` / `ℕ`.  External collaborators (the LP
relaxation, the propagation engine, the symmetry detector) are modelled
as oracle inputs: every call into them is replaced by an explicit
parameter carrying the data the call would have produced, while all
control flow and state updates of the driver itself are translated
directly from the source.

The node stack is stored top-first (`head` is `nodestack.back()` of the
C++ vector); the domain-change stack is stored oldest-first and the
branching-position stack newest-first.
-/

namespace HighsSearchModel

/-- Bound kind of a domain change, `HighsBoundType` in the source. -/
inductive HighsBoundType where
  | kLower
  | kUpper
deriving DecidableEq

/-- A domain change `(boundval, column, boundtype)`, `HighsDomainChange` in the
source (field order follows the C++ struct / brace initializers). -/
structure HighsDomainChange where
  boundval : ℚ
  column : ℤ
  boundtype : HighsBoundType
deriving DecidableEq

/-- Stabilizer orbit information (`StabilizerOrbits`): the orbit column list and
the set of stabilized columns; `isStabilized` is membership in the latter. -/
structure StabilizerOrbits where
  orbitCols : List ℤ
  stabilizedCols : List ℤ
deriving DecidableEq

/-- Membership test `StabilizerOrbits::isStabilized(col)`. -/
def StabilizerOrbits.isStabilized (so : StabilizerOrbits) (col : ℤ) : Bool :=
  so.stabilizedCols.contains col

/-- One frame of the search stack (`HighsSearch::NodeData`).  The default field
values model the C++ default constructor: both children unexplored
(`opensubtrees = 2`), bounds at minus infinity (`none`), no basis and no
stabilizer, sentinel branching column `-1`. -/
structure NodeData where
  lower_bound : Option ℚ := none
  estimate : Option ℚ := none
  branching_point : ℚ := 0
  lp_objective : Option ℚ := none
  branchingdecision : HighsDomainChange := ⟨0, -1, HighsBoundType.kLower⟩
  nodeBasis : Option ℕ := none
  stabilizerOrbits : Option StabilizerOrbits := none
  domgchgStackPos : ℕ := 0
  skipDepthCount : ℕ := 0
  opensubtrees : ℕ := 2
deriving DecidableEq

/-- The local domain as seen by the search driver: the domain-change stack
(oldest first), the positions of branching changes (newest first, a stack),
and the infeasibility flag.  `numChangedCols` models
`getChangedCols().size()` as a bare counter. -/
structure HighsDomainModel where
  domchgStack : List HighsDomainChange := []
  branchPos : List ℕ := []
  infeasibleFlag : Bool := false
  numChangedCols : ℕ := 0
deriving DecidableEq

/-- Outcome of one external propagation call: the inference changes it pushed
and whether it ended infeasible. -/
structure PropagationOutcome where
  inferences : List HighsDomainChange := []
  infeasible : Bool := false

/-- `HighsDomain::changeBound` on a branching domain change: pushes the change
and records its stack position as a branching position. -/
def HighsDomainModel.changeBoundBranching (d : HighsDomainModel)
    (dc : HighsDomainChange) : HighsDomainModel :=
  { d with domchgStack := d.domchgStack ++ [dc],
           branchPos := d.domchgStack.length :: d.branchPos }

/-- Effect of an external propagation-like call on the domain: append the
inference changes and accumulate the infeasibility flag. -/
def HighsDomainModel.pushInferences (d : HighsDomainModel)
    (infs : List HighsDomainChange) (infeas : Bool) : HighsDomainModel :=
  { d with domchgStack := d.domchgStack ++ infs,
           infeasibleFlag := d.infeasibleFlag || infeas }

/-- `HighsDomain::backtrack()`: undo all changes down to (and including) the
most recent branching change, clearing infeasibility. -/
def HighsDomainModel.backtrackDom (d : HighsDomainModel) : HighsDomainModel :=
  match d.branchPos with
  | [] => d
  | p :: ps =>
      { d with domchgStack := d.domchgStack.take p, branchPos := ps,
               infeasibleFlag := false }

/-- `HighsDomain::backtrackToGlobal()`: undo every local change. -/
def HighsDomainModel.backtrackToGlobal (d : HighsDomainModel) :
    HighsDomainModel :=
  { d with domchgStack := [], branchPos := [], infeasibleFlag := false }

/-- Modelled from the spec: `HighsDomain::getReducedDomainChangeStack`
(the domain engine is not part of the sources under review).  The spec
describes the flushed payload as "reduced domain-change stacks + branching
positions"; we model the reduction as returning the stack itself together
with the branching positions in chronological order. -/
def HighsDomainModel.getReducedDomainChangeStack (d : HighsDomainModel) :
    List HighsDomainChange × List ℕ :=
  (d.domchgStack, d.branchPos.reverse)

/-- Modelled from the spec: `HighsDomain::setDomainChangeStack(stack,
branchings)` replays a stored reduced stack, restoring the branching
positions. -/
def HighsDomainModel.setDomainChangeStack (stack : List HighsDomainChange)
    (branchings : List ℕ) : HighsDomainModel :=
  { domchgStack := stack, branchPos := branchings.reverse }

/-- An open node as stored in the shared node queue
(`HighsNodeQueue::OpenNode`). -/
structure OpenNode where
  domchgstack : List HighsDomainChange
  branchings : List ℕ
  lower_bound : Option ℚ
  estimate : Option ℚ
  depth : ℤ
deriving DecidableEq

/-- One pseudocost-store mutation recorded by the driver. -/
inductive PCEvent where
  | observation (col : ℤ) (delta objdelta : ℚ)
  | cutoffObs (col : ℤ) (upbranch : Bool)
  | inferenceObs (col : ℤ) (inferences : ℤ) (upbranch : Bool)
deriving DecidableEq

/-- Read-only context of a search: tolerances, upper limits (`none` models
`kHighsInf`), the global-domain predicates, symmetry data and the pseudocost
score functions used by the plunge backtracker. -/
structure SearchContext where
  feastol : ℚ := 1 / 1000000
  epsilon : ℚ := 1 / 1000000000
  mipUpperLimit : Option ℚ := none
  searchUpperLimit : Option ℚ := none
  isGlobalBinaryCol : ℤ → Bool := fun _ => false
  globalDomIsBinary : ℤ → Bool := fun _ => false
  symColumnTracked : ℤ → Bool := fun _ => false
  numPerms : ℕ := 0
  globalOrbits : Option StabilizerOrbits := none
  getScoreUp : ℤ → ℚ → ℚ := fun _ _ => 0
  getScoreDown : ℤ → ℚ → ℚ := fun _ _ => 0

/-- Mutable state of one `HighsSearch` driver together with the shared MIP
counters it flushes into. -/
structure SearchState where
  nodestack : List NodeData := []
  localdom : HighsDomainModel := {}
  depthoffset : ℤ := 0
  treeweight : ℚ := 0
  nnodes : ℕ := 0
  lpiterations : ℤ := 0
  heurlpiterations : ℤ := 0
  sblpiterations : ℤ := 0
  pcEvents : List PCEvent := []
  queue : List OpenNode := []
  mipNumNodes : ℕ := 0
  mipPrunedTreeweight : ℚ := 0
  mipTotalLpIterations : ℤ := 0
  mipHeurLpIterations : ℤ := 0
  mipSbLpIterations : ℤ := 0

/-- Result classification of a node evaluation (`HighsSearch::NodeResult`). -/
inductive NodeResult where
  | kOpen
  | kDomainInfeasible
  | kLpInfeasible
  | kBoundExceeding
  | kSubOptimal
  | kBranched
deriving DecidableEq

/-- Floor of a rational, as a rational (`std::floor` on the modelled reals). -/
def qFloor (x : ℚ) : ℚ := (Rat.floor x : ℚ)

/-- Ceiling of a rational, as a rational (`std::ceil`). -/
def qCeil (x : ℚ) : ℚ := (Rat.ceil x : ℚ)

/-- Truncation toward zero of a rational (the C++ `int(x)` conversion). -/
def ratTrunc (q : ℚ) : ℤ := Int.tdiv q.num (q.den : ℤ)

/-- Powers of one half with integer exponent, `std::pow(0.5, d)`;
written without `Monoid.npow` so that concrete values kernel-reduce. -/
def halfPow : ℤ → ℚ
  | Int.ofNat n => mkRat 1 (2 ^ n)
  | Int.negSucc n => ((2 ^ (n + 1) : ℕ) : ℚ)

/-- Comparison `x > c` against an optional cutoff, `none` being `+∞`
(nothing exceeds an infinite cutoff). -/
def qGtOpt (x : ℚ) (c : Option ℚ) : Bool :=
  match c with
  | none => false
  | some v => decide (v < x)

/-- Comparison `x > c` where `x` may be `-∞` (`none`). -/
def optGtOpt (x : Option ℚ) (c : Option ℚ) : Bool :=
  match x with
  | none => false
  | some v => qGtOpt v c

/-- Maximum of two lower bounds where `none` is `-∞`. -/
def optMax (a b : Option ℚ) : Option ℚ :=
  match a, b with
  | none, b => b
  | a, none => a
  | some x, some y => some (max x y)

/-- `HighsSearch::getCutoffBound()`:
`min(mipsolver.mipdata_->upper_limit, upper_limit)` with `none` as `+∞`. -/
def getCutoffBound (ctx : SearchContext) : Option ℚ :=
  match ctx.mipUpperLimit, ctx.searchUpperLimit with
  | none, none => none
  | some a, none => some a
  | none, some b => some b
  | some a, some b => some (min a b)

/-- `HighsSearch::getCurrentDepth()`.  Modelled from the spec: the accessor
lives in the missing header `HighsSearch.h`; the spec fixes the logical
depth as `stack_size - 1 + depth_offset` and requires `install_node` (which
sets `depthoffset = node.depth - 1` and then seats exactly one frame) to
restore the flushed depth, which forces the accessor to return
`nodestack.size() + depthoffset`. -/
def getCurrentDepth (s : SearchState) : ℤ :=
  (s.nodestack.length : ℤ) + s.depthoffset

/-- `HighsSearch::orbitsValidInChildNode(branchChg)` evaluated at the current
frame: true when there is no stabilizer (or it has no orbit columns), when
the branched column is stabilized, or when the branch is a down branch
(upper bound) on a globally binary column. -/
def orbitsValidInChildNode (ctx : SearchContext) (currNode : NodeData)
    (branchChg : HighsDomainChange) : Bool :=
  match currNode.stabilizerOrbits with
  | none => true
  | some so =>
      if so.orbitCols.isEmpty || so.isStabilized branchChg.column then true
      else if branchChg.boundtype = HighsBoundType.kUpper &&
              ctx.isGlobalBinaryCol branchChg.column then true
      else false

/-- `HighsSearch::createNewNode()`: push a default frame whose
`domgchgStackPos` is the current size of the domain-change stack. -/
def createNewNode (s : SearchState) : SearchState :=
  { s with nodestack :=
      ({ domgchgStackPos := s.localdom.domchgStack.length } : NodeData)
        :: s.nodestack }

/-- `HighsSearch::cutoffNode()`. -/
def cutoffNode (s : SearchState) : SearchState :=
  match s.nodestack with
  | [] => s
  | top :: rest => { s with nodestack := { top with opensubtrees := 0 } :: rest }

/-- Shared tail of the three branching entry points: stamp the decision on the
current frame, mark one subtree open, apply the bound change and push the
child frame (which inherits bound, estimate, basis, and conditionally the
stabilizer orbits). -/
def pushChildFrame (ctx : SearchContext) (s : SearchState)
    (currnode : NodeData) (rest : List NodeData) : SearchState :=
  let domchgPos := s.localdom.domchgStack.length
  let pass := orbitsValidInChildNode ctx currnode currnode.branchingdecision
  let child : NodeData :=
    { lower_bound := currnode.lower_bound, estimate := currnode.estimate,
      nodeBasis := currnode.nodeBasis,
      stabilizerOrbits := if pass then currnode.stabilizerOrbits else none,
      domgchgStackPos := domchgPos }
  { s with
    nodestack := child :: { currnode with opensubtrees := 1 } :: rest,
    localdom := s.localdom.changeBoundBranching currnode.branchingdecision }

/-- `HighsSearch::branchDownwards(col, newub, branchpoint)`. -/
def branchDownwards (ctx : SearchContext) (s : SearchState) (col : ℤ)
    (newub branchpoint : ℚ) : SearchState :=
  match s.nodestack with
  | [] => s
  | currnode :: rest =>
      let currnode' := { currnode with
        branching_point := branchpoint,
        branchingdecision := ⟨newub, col, HighsBoundType.kUpper⟩ }
      pushChildFrame ctx s currnode' rest

/-- `HighsSearch::branchUpwards(col, newlb, branchpoint)`. -/
def branchUpwards (ctx : SearchContext) (s : SearchState) (col : ℤ)
    (newlb branchpoint : ℚ) : SearchState :=
  match s.nodestack with
  | [] => s
  | currnode :: rest =>
      let currnode' := { currnode with
        branching_point := branchpoint,
        branchingdecision := ⟨newlb, col, HighsBoundType.kLower⟩ }
      pushChildFrame ctx s currnode' rest

/-- Final fragment of `HighsSearch::branch()` (after child selection fixed the
branching decision and branching point on the current frame): apply the
decision and open the child frame. -/
def branchWithSelectedDecision (ctx : SearchContext) (s : SearchState)
    (dc : HighsDomainChange) (branchpoint : ℚ) : SearchState :=
  match s.nodestack with
  | [] => s
  | currnode :: rest =>
      let currnode' := { currnode with
        branching_point := branchpoint, branchingdecision := dc }
      pushChildFrame ctx s currnode' rest

/-- The branch flip every backtracker performs when it reaches a frame with one
open subtree (`HighsSearch::backtrack`, loop body): close the frame, turn an
up branch (lower bound `v`) into the upper bound `⌊v - 0.5⌋` and a down
branch (upper bound `v`) into the lower bound `⌈v + 0.5⌉`; a fallback branch
(whose bound value equalled the branching point) keeps the branching point
tied to the new bound value. -/
def flipNodeBranching (n : NodeData) : NodeData :=
  let fallbackbranch := n.branchingdecision.boundval = n.branching_point
  let n1 : NodeData :=
    if n.branchingdecision.boundtype = HighsBoundType.kLower then
      { n with opensubtrees := 0,
               branchingdecision :=
                 ⟨qFloor (n.branchingdecision.boundval - 1/2),
                  n.branchingdecision.column, HighsBoundType.kUpper⟩ }
    else
      { n with opensubtrees := 0,
               branchingdecision :=
                 ⟨qCeil (n.branchingdecision.boundval + 1/2),
                  n.branchingdecision.column, HighsBoundType.kLower⟩ }
  if fallbackbranch then
    { n1 with branching_point := n1.branchingdecision.boundval }
  else n1

/-- Oracle data for one iteration of a backtracking loop: outcomes of the
repropagation after a pop, of the bound change and propagation after a
flip, and of the orbital fixing that may follow. -/
structure BacktrackIterOracle where
  reprop : PropagationOutcome := {}
  repropOrbitalInfs : List HighsDomainChange := []
  repropOrbitalInfeas : Bool := false
  chgInfeasible : Bool := false
  flipProp : PropagationOutcome := {}
  orbitalInfs : List HighsDomainChange := []
  orbitalInfeas : Bool := false

/-- Pop step shared by the backtracking loops: add the popped frame's
`skipDepthCount` to the depth offset, remove the frame, and either reset the
domain to global (stack exhausted) or undo its branching change and
repropagate the newly exposed frame (closing it if repropagation turned it
infeasible). -/
def backtrackPopStep (s : SearchState) (top : NodeData) (rest : List NodeData)
    (o : BacktrackIterOracle) : SearchState × Bool :=
  let s1 := { s with depthoffset := s.depthoffset + (top.skipDepthCount : ℤ),
                     nodestack := rest }
  match rest with
  | [] =>
      ({ s1 with localdom := s1.localdom.backtrackToGlobal }, false)
  | newtop :: rest2 =>
      let d0 := s1.localdom.backtrackDom
      if newtop.opensubtrees ≠ 0 then
        let d1 := d0.pushInferences o.reprop.inferences o.reprop.infeasible
        let d2 :=
          if newtop.stabilizerOrbits.isSome && !d1.infeasibleFlag &&
             !o.reprop.inferences.isEmpty then
            d1.pushInferences o.repropOrbitalInfs o.repropOrbitalInfeas
          else d1
        if d2.infeasibleFlag then
          ({ s1 with
              localdom := d2,
              nodestack := { newtop with opensubtrees := 0 } :: rest2 }, true)
        else ({ s1 with localdom := d2 }, true)
      else ({ s1 with localdom := d0 }, true)

/-- Domain after applying the flipped bound of a backtrack flip (the
`changeBound` call, whose own infeasibility detection is oracle flag
`chgInfeasible`). -/
def flipDomain0 (d : HighsDomainModel) (currnode : NodeData)
    (o : BacktrackIterOracle) : HighsDomainModel :=
  let d0 := d.changeBoundBranching currnode.branchingdecision
  { d0 with infeasibleFlag := d0.infeasibleFlag || o.chgInfeasible }

/-- First prune test of a backtrack flip: bound above cutoff or infeasible
bound change. -/
def flipPrune0 (ctx : SearchContext) (d : HighsDomainModel)
    (currnode : NodeData) (o : BacktrackIterOracle) : Bool :=
  optGtOpt currnode.lower_bound (getCutoffBound ctx) ||
    (flipDomain0 d currnode o).infeasibleFlag

/-- Domain after the propagation that follows a surviving flip. -/
def flipDomain1 (ctx : SearchContext) (d : HighsDomainModel)
    (currnode : NodeData) (o : BacktrackIterOracle) : HighsDomainModel :=
  if !flipPrune0 ctx d currnode o then
    (flipDomain0 d currnode o).pushInferences o.flipProp.inferences
      o.flipProp.infeasible
  else flipDomain0 d currnode o

/-- Prune test after propagation. -/
def flipPrune1 (ctx : SearchContext) (d : HighsDomainModel)
    (currnode : NodeData) (o : BacktrackIterOracle) : Bool :=
  flipPrune0 ctx d currnode o || (flipDomain1 ctx d currnode o).infeasibleFlag

/-- Domain after the orbital fixing that follows when the stabilizer passes to
the child. -/
def flipDomain2 (ctx : SearchContext) (d : HighsDomainModel)
    (currnode : NodeData) (o : BacktrackIterOracle) : HighsDomainModel :=
  if !flipPrune1 ctx d currnode o &&
     orbitsValidInChildNode ctx currnode currnode.branchingdecision &&
     currnode.stabilizerOrbits.isSome then
    (flipDomain1 ctx d currnode o).pushInferences o.orbitalInfs o.orbitalInfeas
  else flipDomain1 ctx d currnode o

/-- Final prune decision of a backtrack flip. -/
def flipPrune2 (ctx : SearchContext) (d : HighsDomainModel)
    (currnode : NodeData) (o : BacktrackIterOracle) : Bool :=
  flipPrune1 ctx d currnode o || (flipDomain2 ctx d currnode o).infeasibleFlag

/-- Flip step of `HighsSearch::backtrack`: flip the branching decision of the
frame with one open subtree, apply the flipped bound, and either prune
(lower bound above cutoff, or infeasibility from the change, the
propagation, or the orbital fixing) or push the sibling child frame.
Returns the new state and `true` when it pruned (so the loop continues). -/
def backtrackFlipStep (ctx : SearchContext) (s : SearchState) (top : NodeData)
    (rest : List NodeData) (o : BacktrackIterOracle) : SearchState × Bool :=
  let currnode := flipNodeBranching top
  let domchgPos := s.localdom.domchgStack.length
  let pass := orbitsValidInChildNode ctx currnode currnode.branchingdecision
  if flipPrune2 ctx s.localdom currnode o then
    ({ s with
        nodestack := currnode :: rest,
        localdom := (flipDomain2 ctx s.localdom currnode o).backtrackDom,
        treeweight := s.treeweight + halfPow (getCurrentDepth s) }, true)
  else
    let child : NodeData :=
      { lower_bound := currnode.lower_bound, estimate := currnode.estimate,
        nodeBasis := currnode.nodeBasis,
        stabilizerOrbits := if pass then currnode.stabilizerOrbits else none,
        domgchgStackPos := domchgPos }
    ({ s with
        nodestack := child :: currnode :: rest,
        localdom := flipDomain2 ctx s.localdom currnode o }, false)

/-- Fuel-indexed loop of `HighsSearch::backtrack(recoverBasis)`: unwind closed
frames, flip the first frame with an open subtree, prune-and-continue or
descend into the sibling.  Returns `false` when the stack is exhausted. -/
def backtrackLoop (ctx : SearchContext) (orc : ℕ → BacktrackIterOracle) :
    ℕ → ℕ → SearchState → SearchState × Bool
  | _, 0, s => (s, false)
  | k, fuel + 1, s =>
      match s.nodestack with
      | [] => (s, false)
      | top :: rest =>
          if top.opensubtrees = 0 then
            let r := backtrackPopStep s top rest (orc k)
            if r.2 then backtrackLoop ctx orc (k + 1) fuel r.1
            else (r.1, false)
          else
            let r := backtrackFlipStep ctx s top rest (orc k)
            if r.2 then backtrackLoop ctx orc (k + 1) fuel r.1
            else (r.1, true)

/-- `HighsSearch::backtrack`: enough fuel to pop and flip every frame. -/
def backtrack (ctx : SearchContext) (orc : ℕ → BacktrackIterOracle)
    (s : SearchState) : SearchState × Bool :=
  if s.nodestack.isEmpty then (s, false)
  else backtrackLoop ctx orc 0 (2 * s.nodestack.length + 1) s

/-- Additive branch score of an ancestor frame used by the plunge backtracker:
score of the inactive direction minus score of the active direction, with a
fallback branch scored at branching point `0.5`. -/
def ancestorScoreGap (ctx : SearchContext) (anc : NodeData) : ℚ :=
  let fallbackbranch := anc.branchingdecision.boundval = anc.branching_point
  let branchpoint := if fallbackbranch then 1/2 else anc.branching_point
  if anc.branchingdecision.boundtype = HighsBoundType.kLower then
    ctx.getScoreDown anc.branchingdecision.column branchpoint -
      ctx.getScoreUp anc.branchingdecision.column branchpoint
  else
    ctx.getScoreUp anc.branchingdecision.column branchpoint -
      ctx.getScoreDown anc.branchingdecision.column branchpoint

/-- Parking decision of `HighsSearch::backtrackPlunge`: walk the ancestors from
the deepest to the root, skip closed ones, and decide on the FIRST open
ancestor only (the loop body ends with an unconditional `break`): the node
goes to the queue iff that ancestor's inactive-minus-active score exceeds
the sibling's score by more than `feastol`. -/
def plungeNodeToQueue (ctx : SearchContext) (ancestors : List NodeData)
    (nodeScore : ℚ) : Bool :=
  match ancestors.find? (fun nd => nd.opensubtrees != 0) with
  | none => false
  | some anc => decide (nodeScore + ctx.feastol < ancestorScoreGap ctx anc)

/-- The parking decision as the specification states it: the node is parked
when SOME still-open ancestor's inactive-direction score exceeds its
active-direction score by more than the sibling's score plus `feastol`. -/
def plungeNodeToQueueSpec (ctx : SearchContext) (ancestors : List NodeData)
    (nodeScore : ℚ) : Bool :=
  ancestors.any (fun nd =>
    nd.opensubtrees != 0 &&
      decide (nodeScore + ctx.feastol < ancestorScoreGap ctx nd))

/-- Sibling score computed during the plunge flip: the pseudocost score of the
direction being flipped into, at the branching point (or at `0.5` for a
fallback branch). -/
def plungeNodeScore (ctx : SearchContext) (top : NodeData) : ℚ :=
  let fallbackbranch := top.branchingdecision.boundval = top.branching_point
  let branchpoint := if fallbackbranch then 1/2 else top.branching_point
  if top.branchingdecision.boundtype = HighsBoundType.kLower then
    ctx.getScoreDown top.branchingdecision.column branchpoint
  else
    ctx.getScoreUp top.branchingdecision.column branchpoint

/-- Flip step of `HighsSearch::backtrackPlunge`: as `backtrackFlipStep`, but a
surviving sibling may additionally be parked into the shared node queue
(reduced stack, branching positions, lower bound, estimate, depth + 1) when
`plungeNodeToQueue` fires; parking also continues the loop. -/
def backtrackPlungeFlipStep (ctx : SearchContext) (s : SearchState)
    (top : NodeData) (rest : List NodeData) (o : BacktrackIterOracle) :
    SearchState × Bool :=
  let currnode := flipNodeBranching top
  let nodeScore := plungeNodeScore ctx top
  let domchgPos := s.localdom.domchgStack.length
  let pass := orbitsValidInChildNode ctx currnode currnode.branchingdecision
  if flipPrune2 ctx s.localdom currnode o then
    ({ s with
        nodestack := currnode :: rest,
        localdom := (flipDomain2 ctx s.localdom currnode o).backtrackDom,
        treeweight := s.treeweight + halfPow (getCurrentDepth s) }, true)
  else if plungeNodeToQueue ctx rest nodeScore then
    let d3 := (flipDomain2 ctx s.localdom currnode o).backtrackDom
    ({ s with
        nodestack := currnode :: rest, localdom := d3,
        queue := s.queue ++
          [⟨d3.getReducedDomainChangeStack.1, d3.getReducedDomainChangeStack.2,
            currnode.lower_bound, currnode.estimate,
            getCurrentDepth s + 1⟩] }, true)
  else
    let child : NodeData :=
      { lower_bound := currnode.lower_bound, estimate := currnode.estimate,
        nodeBasis := currnode.nodeBasis,
        stabilizerOrbits := if pass then currnode.stabilizerOrbits else none,
        domgchgStackPos := domchgPos }
    ({ s with
        nodestack := child :: currnode :: rest,
        localdom := flipDomain2 ctx s.localdom currnode o }, false)

/-- Fuel-indexed loop of `HighsSearch::backtrackPlunge`. -/
def backtrackPlungeLoop (ctx : SearchContext) (orc : ℕ → BacktrackIterOracle) :
    ℕ → ℕ → SearchState → SearchState × Bool
  | _, 0, s => (s, false)
  | k, fuel + 1, s =>
      match s.nodestack with
      | [] => (s, false)
      | top :: rest =>
          if top.opensubtrees = 0 then
            let r := backtrackPopStep s top rest (orc k)
            if r.2 then backtrackPlungeLoop ctx orc (k + 1) fuel r.1
            else (r.1, false)
          else
            let r := backtrackPlungeFlipStep ctx s top rest (orc k)
            if r.2 then backtrackPlungeLoop ctx orc (k + 1) fuel r.1
            else (r.1, true)

/-- `HighsSearch::backtrackPlunge(nodequeue)`. -/
def backtrackPlunge (ctx : SearchContext) (orc : ℕ → BacktrackIterOracle)
    (s : SearchState) : SearchState × Bool :=
  if s.nodestack.isEmpty then (s, false)
  else backtrackPlungeLoop ctx orc 0 (2 * s.nodestack.length + 1) s

/-- `HighsSearch::backtrackUntilDepth(targetDepth)`: close the top frame while
the current depth is at least the target, unwind closed frames (with no
repropagation), then flip and immediately descend (no prune check). -/
def backtrackUntilDepthLoop (ctx : SearchContext) (targetDepth : ℤ) :
    ℕ → SearchState → SearchState × Bool
  | 0, s => (s, false)
  | fuel + 1, s =>
      match s.nodestack with
      | [] => (s, false)
      | top :: rest =>
          let top := if targetDepth ≤ getCurrentDepth s then
              { top with opensubtrees := 0 } else top
          if top.opensubtrees = 0 then
            let s1 := { s with
              depthoffset := s.depthoffset + (top.skipDepthCount : ℤ),
              nodestack := rest,
              localdom := s.localdom.backtrackDom }
            match rest with
            | [] => (s1, false)
            | _ :: _ => backtrackUntilDepthLoop ctx targetDepth fuel s1
          else
            let currnode := flipNodeBranching top
            let domchgPos := s.localdom.domchgStack.length
            let pass :=
              orbitsValidInChildNode ctx currnode currnode.branchingdecision
            let child : NodeData :=
              { lower_bound := currnode.lower_bound,
                estimate := currnode.estimate,
                nodeBasis := currnode.nodeBasis,
                stabilizerOrbits :=
                  if pass then currnode.stabilizerOrbits else none,
                domgchgStackPos := domchgPos }
            ({ s with
                nodestack := child :: currnode :: rest,
                localdom :=
                  s.localdom.changeBoundBranching currnode.branchingdecision },
             true)

/-- `HighsSearch::backtrackUntilDepth(targetDepth)`. -/
def backtrackUntilDepth (ctx : SearchContext) (targetDepth : ℤ)
    (s : SearchState) : SearchState × Bool :=
  if s.nodestack.isEmpty then (s, false)
  else backtrackUntilDepthLoop ctx targetDepth (s.nodestack.length + 1) s

/-- Check of one branching domain change in `HighsSearch::installNode`: a
change on an untracked column is ignored; a change on a tracked column
invalidates the global orbits when the column is not binary in the global
domain or the change fixes it to `1` through a lower bound. -/
def branchingChangeKeepsGlobalOrbits (ctx : SearchContext)
    (stack : List HighsDomainChange) (i : ℕ) : Bool :=
  match stack.get? i with
  | none => true
  | some dc =>
      if !ctx.symColumnTracked dc.column then true
      else if !ctx.globalDomIsBinary dc.column ||
              (dc.boundtype = HighsBoundType.kLower && dc.boundval = 1) then
        false
      else true

/-- Validity loop of `HighsSearch::installNode` (the `break` on the first
failure is equivalent to checking all branching positions). -/
def globalSymmetriesValidCheck (ctx : SearchContext)
    (stack : List HighsDomainChange) (branchings : List ℕ) : Bool :=
  branchings.all (branchingChangeKeepsGlobalOrbits ctx stack)

/-- Validity condition as the specification states it: global orbits remain
valid when every branching domain change on a symmetry-tracked column is
either setting a binary variable to `1` via a lower-bound branch, or not on
a binary symmetric column. -/
def specGlobalOrbitsValid (ctx : SearchContext)
    (stack : List HighsDomainChange) (branchings : List ℕ) : Bool :=
  branchings.all (fun i =>
    match stack.get? i with
    | none => true
    | some dc =>
        if !ctx.symColumnTracked dc.column then true
        else
          (ctx.globalDomIsBinary dc.column &&
             (dc.boundtype = HighsBoundType.kLower && dc.boundval = 1)) ||
          !ctx.globalDomIsBinary dc.column)

/-- `HighsSearch::installNode(node)`: replay the node's reduced domain-change
stack, re-check validity of the global orbits over its branching positions
(when global orbits exist), seat a fresh frame carrying the stored bound and
estimate (with the global orbits only if still valid), and set the depth
offset to the stored depth minus one. -/
def installNode (ctx : SearchContext) (s : SearchState) (node : OpenNode) :
    SearchState :=
  let globalSymmetriesValid :=
    match ctx.globalOrbits with
    | none => true
    | some _ => globalSymmetriesValidCheck ctx node.domchgstack node.branchings
  { s with
    localdom :=
      HighsDomainModel.setDomainChangeStack node.domchgstack node.branchings,
    nodestack :=
      ({ lower_bound := node.lower_bound, estimate := node.estimate,
         stabilizerOrbits :=
           if globalSymmetriesValid then ctx.globalOrbits else none }
        : NodeData) :: s.nodestack,
    depthoffset := node.depth - 1 }

/-- `HighsSearch::currentNodeToQueue(nodequeue)`: prune the current frame if
its bound exceeds the cutoff or repropagation fails (adding the tree weight
of the pruned frame), otherwise flush it to the queue as a reduced stack
with bound, estimate and depth; then close the frame and backtrack. -/
def currentNodeToQueue (ctx : SearchContext) (prop : PropagationOutcome)
    (orc : ℕ → BacktrackIterOracle) (s : SearchState) : SearchState :=
  match s.nodestack with
  | [] => s
  | top :: rest =>
      let prune0 := optGtOpt top.lower_bound (getCutoffBound ctx)
      let d1 :=
        if !prune0 then
          s.localdom.pushInferences prop.inferences prop.infeasible
        else s.localdom
      let prune := prune0 || d1.infeasibleFlag
      let s1 :=
        if !prune then
          { s with
            localdom := d1,
            queue := s.queue ++
              [⟨d1.getReducedDomainChangeStack.1,
                d1.getReducedDomainChangeStack.2, top.lower_bound,
                top.estimate, getCurrentDepth s⟩] }
        else
          { s with
            localdom := d1,
            treeweight := s.treeweight + halfPow (getCurrentDepth s - 1) }
      let s2 := { s1 with
        nodestack := { top with opensubtrees := 0 } :: rest }
      (backtrack ctx orc s2).1

/-- `HighsSearch::flushStatistics()`: add every local counter into the shared
MIP-wide counters and zero the local values. -/
def flushStatistics (s : SearchState) : SearchState :=
  { s with
    mipNumNodes := s.mipNumNodes + s.nnodes, nnodes := 0,
    mipPrunedTreeweight := s.mipPrunedTreeweight + s.treeweight,
    treeweight := 0,
    mipTotalLpIterations := s.mipTotalLpIterations + s.lpiterations,
    lpiterations := 0,
    mipHeurLpIterations := s.mipHeurLpIterations + s.heurlpiterations,
    heurlpiterations := 0,
    mipSbLpIterations := s.mipSbLpIterations + s.sblpiterations,
    sblpiterations := 0 }

/-- Reliability-budget fragment at the head of the `HighsSearch::branch` loop
(lines preceding the call to `selectBranchingCandidate`): when the minimum
reliability is positive, the strong-branching iteration budget is
`100000 + ((total - heuristic - strongbranching) >> 1)`; exceeding it drops
the minimum reliability to zero, exceeding half of it shrinks it linearly
toward one; afterwards a degeneracy factor of at least ten forces it to
zero unconditionally.  Returns `(sbmaxiters, new minimum reliability)`. -/
def sbMaxItersOf (totalLp heurLp sbIters : ℤ) : ℤ :=
  100000 + ((totalLp - heurLp - sbIters) >>> (1 : ℕ))

/-- The linearly reduced minimum reliability used between half budget and full
budget: `int(minrel - reductionratio * (minrel - 1))`. -/
def minrelReduced (minrel sbmaxiters sbIters : ℤ) : ℤ :=
  ratTrunc ((minrel : ℚ) -
    (((sbIters - Int.tdiv sbmaxiters 2 : ℤ) : ℚ) /
      ((sbmaxiters - Int.tdiv sbmaxiters 2 : ℤ) : ℚ)) * ((minrel : ℚ) - 1))

def branchMinReliableUpdate (minrel totalLp heurLp sbIters : ℤ)
    (degeneracyFac : ℚ) : ℤ × ℤ :=
  let sbmaxiters : ℤ :=
    if 0 < minrel then sbMaxItersOf totalLp heurLp sbIters else 0
  let minrelAfterBudget : ℤ :=
    if 0 < minrel then
      if sbmaxiters < sbIters then 0
      else if Int.tdiv sbmaxiters 2 < sbIters then
        min minrel (minrelReduced minrel sbmaxiters sbIters)
      else minrel
    else minrel
  let newMinReliable := if (10 : ℚ) ≤ degeneracyFac then 0 else minrelAfterBudget
  (sbmaxiters, newMinReliable)

/-- LP data of one strong-branching trial solve, supplied by the LP oracle.
`extraEvents` abstracts the opportunistic pseudocost observations the probe
records for other fractional candidates from the same trial solution. -/
structure ProbeLpData where
  statusScaledOptimal : Bool := false
  statusInfeasible : Bool := false
  unscaledPrimalFeasible : Bool := false
  unscaledDualFeasible : Bool := false
  solobj : ℚ := 0
  lpObjective : ℚ := 0
  integerfeasible : Bool := false
  iterations : ℤ := 0
  extraEvents : List PCEvent := []

/-- Oracle for one probe iteration of `selectBranchingCandidate`: trial
propagation, orbital fixing, the trial LP, and the extra propagation of the
not-dual-feasible bound-exceeding path. -/
structure ProbeOracle where
  prop : PropagationOutcome := {}
  orbitalInfs : List HighsDomainChange := []
  orbitalInfeas : Bool := false
  lp : ProbeLpData := {}
  bePropagation : PropagationOutcome := {}

/-- Commit of the opposite (up) branch after a failed down probe:
`branchUpwards` followed by closing the branching frame
(`opensubtrees = 0`, `skipDepthCount = 1`) and decrementing the depth
offset. -/
def commitOppositeUp (ctx : SearchContext) (s : SearchState) (col : ℤ)
    (upval fracval : ℚ) : SearchState :=
  let s1 := branchUpwards ctx s col upval fracval
  match s1.nodestack with
  | child :: parent :: rest =>
      { s1 with
        nodestack :=
          child :: { parent with opensubtrees := 0, skipDepthCount := 1 }
            :: rest,
        depthoffset := s1.depthoffset - 1 }
  | _ => s1

/-- Commit of the opposite (down) branch after a failed up probe. -/
def commitOppositeDown (ctx : SearchContext) (s : SearchState) (col : ℤ)
    (downval fracval : ℚ) : SearchState :=
  let s1 := branchDownwards ctx s col downval fracval
  match s1.nodestack with
  | child :: parent :: rest =>
      { s1 with
        nodestack :=
          child :: { parent with opensubtrees := 0, skipDepthCount := 1 }
            :: rest,
        depthoffset := s1.depthoffset - 1 }
  | _ => s1

/-- Down-branch probe body of `HighsSearch::selectBranchingCandidate`: trial
the upper bound `⌊fracval⌋`, propagate and orbit-fix; on infeasibility
record a cutoff observation, undo the trial and commit the up branch
(returning `-1`); otherwise record an inference observation, solve the
trial LP and follow the source's classification (commit paths also return
`-1`; `none` means the probing loop continues).  The incumbent hand-off of
an integer-feasible trial solution is external and not modelled. -/
def probeDown (ctx : SearchContext) (s : SearchState) (col : ℤ) (fracval : ℚ)
    (o : ProbeOracle) : SearchState × Option ℤ :=
  match s.nodestack with
  | [] => (s, none)
  | top :: _ =>
      let upval := qCeil fracval
      let downval := qFloor fracval
      let oldsize := (s.localdom.domchgStack.length : ℤ)
      let domchg : HighsDomainChange := ⟨downval, col, HighsBoundType.kUpper⟩
      let orbitalFixing0 := top.stabilizerOrbits.isSome &&
        orbitsValidInChildNode ctx top domchg
      let d1 := (s.localdom.changeBoundBranching domchg).pushInferences
        o.prop.inferences o.prop.infeasible
      let orbitalFixing1 := if d1.infeasibleFlag then false else orbitalFixing0
      let d2 := if orbitalFixing1 then
          d1.pushInferences o.orbitalInfs o.orbitalInfeas
        else d1
      let inferences : ℤ := (d2.domchgStack.length : ℤ) - oldsize - 1
      if d2.infeasibleFlag then
        let s1 := { s with
          localdom := d2.backtrackDom,
          pcEvents := s.pcEvents ++ [PCEvent.cutoffObs col false] }
        (commitOppositeUp ctx s1 col upval fracval, some (-1))
      else
        let s1 := { s with
          localdom := d2,
          pcEvents := s.pcEvents ++ [PCEvent.inferenceObs col inferences false] }
        let s2 := { s1 with
          lpiterations := s1.lpiterations + o.lp.iterations,
          sblpiterations := s1.sblpiterations + o.lp.iterations }
        if o.lp.statusScaledOptimal then
          let objdelta0 := max (o.lp.solobj - o.lp.lpObjective) 0
          let objdelta := if objdelta0 ≤ ctx.epsilon then 0 else objdelta0
          let s3 := { s2 with
            pcEvents := s2.pcEvents ++
              [PCEvent.observation col (downval - fracval) objdelta] ++
              o.lp.extraEvents }
          if o.lp.unscaledDualFeasible then
            if qGtOpt o.lp.solobj (getCutoffBound ctx) then
              let s4 := { s3 with localdom := s3.localdom.backtrackDom }
              (commitOppositeUp ctx s4 col upval fracval, some (-1))
            else ({ s3 with localdom := s3.localdom.backtrackDom }, none)
          else if qGtOpt o.lp.solobj (getCutoffBound ctx) then
            let d3 := s3.localdom.pushInferences o.bePropagation.inferences
              o.bePropagation.infeasible
            if d3.infeasibleFlag then
              let s4 := { s3 with localdom := d3.backtrackDom }
              (commitOppositeUp ctx s4 col upval fracval, some (-1))
            else ({ s3 with localdom := d3.backtrackDom }, none)
          else ({ s3 with localdom := s3.localdom.backtrackDom }, none)
        else if o.lp.statusInfeasible then
          let s3 := { s2 with
            pcEvents := s2.pcEvents ++ [PCEvent.cutoffObs col false],
            localdom := s2.localdom.backtrackDom }
          (commitOppositeUp ctx s3 col upval fracval, some (-1))
        else ({ s2 with localdom := s2.localdom.backtrackDom }, none)

/-- Up-branch probe body of `HighsSearch::selectBranchingCandidate`, symmetric
to `probeDown`: trial the lower bound `⌈fracval⌉`; on infeasibility record
an up cutoff observation and commit the down branch. -/
def probeUp (ctx : SearchContext) (s : SearchState) (col : ℤ) (fracval : ℚ)
    (o : ProbeOracle) : SearchState × Option ℤ :=
  match s.nodestack with
  | [] => (s, none)
  | top :: _ =>
      let upval := qCeil fracval
      let downval := qFloor fracval
      let oldsize := (s.localdom.domchgStack.length : ℤ)
      let domchg : HighsDomainChange := ⟨upval, col, HighsBoundType.kLower⟩
      let orbitalFixing0 := top.stabilizerOrbits.isSome &&
        orbitsValidInChildNode ctx top domchg
      let d1 := (s.localdom.changeBoundBranching domchg).pushInferences
        o.prop.inferences o.prop.infeasible
      let orbitalFixing1 := if d1.infeasibleFlag then false else orbitalFixing0
      let d2 := if orbitalFixing1 then
          d1.pushInferences o.orbitalInfs o.orbitalInfeas
        else d1
      let inferences : ℤ := (d2.domchgStack.length : ℤ) - oldsize - 1
      if d2.infeasibleFlag then
        let s1 := { s with
          localdom := d2.backtrackDom,
          pcEvents := s.pcEvents ++ [PCEvent.cutoffObs col true] }
        (commitOppositeDown ctx s1 col downval fracval, some (-1))
      else
        let s1 := { s with
          localdom := d2,
          pcEvents := s.pcEvents ++ [PCEvent.inferenceObs col inferences true] }
        let s2 := { s1 with
          lpiterations := s1.lpiterations + o.lp.iterations,
          sblpiterations := s1.sblpiterations + o.lp.iterations }
        if o.lp.statusScaledOptimal then
          let objdelta0 := max (o.lp.solobj - o.lp.lpObjective) 0
          let objdelta := if objdelta0 ≤ ctx.epsilon then 0 else objdelta0
          let s3 := { s2 with
            pcEvents := s2.pcEvents ++
              [PCEvent.observation col (upval - fracval) objdelta] ++
              o.lp.extraEvents }
          if o.lp.unscaledDualFeasible then
            if qGtOpt o.lp.solobj (getCutoffBound ctx) then
              let s4 := { s3 with localdom := s3.localdom.backtrackDom }
              (commitOppositeDown ctx s4 col downval fracval, some (-1))
            else ({ s3 with localdom := s3.localdom.backtrackDom }, none)
          else if qGtOpt o.lp.solobj (getCutoffBound ctx) then
            let d3 := s3.localdom.pushInferences o.bePropagation.inferences
              o.bePropagation.infeasible
            if d3.infeasibleFlag then
              let s4 := { s3 with localdom := d3.backtrackDom }
              (commitOppositeDown ctx s4 col downval fracval, some (-1))
            else ({ s3 with localdom := d3.backtrackDom }, none)
          else ({ s3 with localdom := s3.localdom.backtrackDom }, none)
        else if o.lp.statusInfeasible then
          let s3 := { s2 with
            pcEvents := s2.pcEvents ++ [PCEvent.cutoffObs col true],
            localdom := s2.localdom.backtrackDom }
          (commitOppositeDown ctx s3 col downval fracval, some (-1))
        else ({ s2 with localdom := s2.localdom.backtrackDom }, none)

/-- Outcome of `lp->resolveLp(&localdom)` together with the classification
flags the evaluator queries on it.  `domInfs` / `domInfeasible` are the
domain changes the resolve itself propagated. -/
structure LpResolveOutcome where
  statusScaledOptimal : Bool := false
  statusInfeasible : Bool := false
  modelStatusObjectiveBound : Bool := false
  unscaledPrimalFeasible : Bool := false
  unscaledDualFeasible : Bool := false
  objective : ℚ := 0
  fracIntsEmpty : Bool := false
  iterations : ℤ := 0
  domInfs : List HighsDomainChange := []
  domInfeasible : Bool := false
  basisToken : ℕ := 0
  estimate : ℚ := 0

/-- Oracle for one pass of `HighsSearch::evaluateNode`: the initial
propagation, the freshly computed stabilizer (when one is computed), the
orbital fixing, the LP resolve, the reduced-cost fixing and the extra
propagation of the bound-exceeding fallback path. -/
structure EvalIterOracle where
  prop : PropagationOutcome := {}
  stabOrbitsComputed : Option StabilizerOrbits := none
  orbitalInfs : List HighsDomainChange := []
  orbitalInfeas : Bool := false
  lp : LpResolveOutcome := {}
  redcostInfs : List HighsDomainChange := []
  redcostInfeasible : Bool := false
  beProp : PropagationOutcome := {}

/-- Cutoff observation recorded on the parent branching column when a child
evaluation fails (`parent != nullptr`, parent has an LP objective, and the
parent branch was not a fallback branch). -/
def parentCutoffEvents (parentData : Option NodeData) : List PCEvent :=
  match parentData with
  | none => []
  | some p =>
      if p.lp_objective.isSome &&
         decide (p.branching_point ≠ p.branchingdecision.boundval) then
        [PCEvent.cutoffObs p.branchingdecision.column
          (p.branchingdecision.boundtype = HighsBoundType.kLower)]
      else []

/-- Final block of `HighsSearch::evaluateNode`: on a non-open result the
current frame is closed and the tree weight of its subtree
(`0.5 ^ (getCurrentDepth() - 1)`) is accumulated. -/
def finalizeEval (s : SearchState) (result : NodeResult) :
    SearchState × NodeResult :=
  if result ≠ NodeResult.kOpen then
    match s.nodestack with
    | [] => (s, result)
    | top :: rest =>
        ({ s with
            treeweight := s.treeweight + halfPow (getCurrentDepth s - 1),
            nodestack := { top with opensubtrees := 0 } :: rest }, result)
  else (s, result)

/-- Domain after the initial propagation of `evaluateNode`. -/
def evalDomain1 (s : SearchState) (o : EvalIterOracle) : HighsDomainModel :=
  s.localdom.pushInferences o.prop.inferences o.prop.infeasible

/-- Guard under which `evaluateNode` computes a fresh stabilizer: feasible so
far, symmetries present, no inherited stabilizer, and no parent whose
stabilizer has an empty orbit column set. -/
def evalComputeStabCond (ctx : SearchContext) (top : NodeData)
    (parentData : Option NodeData) (d1 : HighsDomainModel) : Bool :=
  !d1.infeasibleFlag && decide (0 < ctx.numPerms) &&
    top.stabilizerOrbits.isNone &&
    (match parentData with
     | none => true
     | some p =>
         match p.stabilizerOrbits with
         | none => true
         | some so => !so.orbitCols.isEmpty)

/-- The current frame after the stabilizer computation step. -/
def evalCurrnode1 (ctx : SearchContext) (top : NodeData)
    (parentData : Option NodeData) (d1 : HighsDomainModel)
    (o : EvalIterOracle) : NodeData :=
  if evalComputeStabCond ctx top parentData d1 then
    { top with stabilizerOrbits := o.stabOrbitsComputed }
  else top

/-- Domain after propagation and the orbital fixing of `evaluateNode`. -/
def evalDomain2 (ctx : SearchContext) (top : NodeData)
    (parentData : Option NodeData) (s : SearchState) (o : EvalIterOracle) :
    HighsDomainModel :=
  if !(evalDomain1 s o).infeasibleFlag &&
     (evalCurrnode1 ctx top parentData
       (evalDomain1 s o) o).stabilizerOrbits.isSome then
    (evalDomain1 s o).pushInferences o.orbitalInfs o.orbitalInfeas
  else evalDomain1 s o

/-- The parent inference observation recorded at the top of `evaluateNode`. -/
def evalInfEvents (parentData : Option NodeData) (d2 : HighsDomainModel)
    (currnode1 : NodeData) : List PCEvent :=
  match parentData with
  | none => []
  | some p =>
      [PCEvent.inferenceObs p.branchingdecision.column
        ((d2.domchgStack.length : ℤ) - ((currnode1.domgchgStackPos : ℤ) + 1))
        (p.branchingdecision.boundtype = HighsBoundType.kLower)]

/-- The parent pseudocost observation recorded on a scaled-optimal LP. -/
def evalObsEvents (parentData : Option NodeData) (objective : ℚ) :
    List PCEvent :=
  match parentData with
  | none => []
  | some p =>
      if p.lp_objective.isSome &&
         decide (p.branching_point ≠ p.branchingdecision.boundval) then
        [PCEvent.observation p.branchingdecision.column
          (p.branchingdecision.boundval - p.branching_point)
          (max 0 (objective - p.lp_objective.getD 0))]
      else []

/-- The current frame of `evaluateNode` after the stabilizer step, as a
function of the full evaluation context (`currnode` after the
`computeStabilizerOrbits` block). -/
def evalCn1 (ctx : SearchContext) (o : EvalIterOracle) (s : SearchState)
    (currnode0 : NodeData) (rest : List NodeData) : NodeData :=
  evalCurrnode1 ctx currnode0 rest.head? (evalDomain1 s o) o

/-- The domain after the LP-driven propagation round of `evaluateNode`. -/
def evalD3 (ctx : SearchContext) (o : EvalIterOracle) (s : SearchState)
    (currnode0 : NodeData) (rest : List NodeData) : HighsDomainModel :=
  (evalDomain2 ctx currnode0 rest.head? s o).pushInferences o.lp.domInfs
    o.lp.domInfeasible

/-- Search state after the parent inference observation at the top of
`evaluateNode`. -/
def evalS0 (ctx : SearchContext) (o : EvalIterOracle) (s : SearchState)
    (currnode0 : NodeData) (rest : List NodeData) : SearchState :=
  { s with
    pcEvents := s.pcEvents ++
      evalInfEvents rest.head? (evalDomain2 ctx currnode0 rest.head? s o)
        (evalCn1 ctx o s currnode0 rest) }

/-- Search state after the LP resolve charged its iteration count. -/
def evalS1 (ctx : SearchContext) (o : EvalIterOracle) (s : SearchState)
    (currnode0 : NodeData) (rest : List NodeData) : SearchState :=
  { evalS0 ctx o s currnode0 rest with
    lpiterations := (evalS0 ctx o s currnode0 rest).lpiterations +
      o.lp.iterations }

/-- The current frame after a scaled-optimal LP stored its basis, estimate
and objective. -/
def evalCn2 (ctx : SearchContext) (o : EvalIterOracle) (s : SearchState)
    (currnode0 : NodeData) (rest : List NodeData) : NodeData :=
  { evalCn1 ctx o s currnode0 rest with
    nodeBasis := some o.lp.basisToken,
    estimate := some o.lp.estimate,
    lp_objective := some o.lp.objective }

/-- Search state after the parent pseudocost observation on a scaled-optimal
LP. -/
def evalS2 (ctx : SearchContext) (o : EvalIterOracle) (s : SearchState)
    (currnode0 : NodeData) (rest : List NodeData) : SearchState :=
  { evalS1 ctx o s currnode0 rest with
    pcEvents := (evalS1 ctx o s currnode0 rest).pcEvents ++
      evalObsEvents rest.head? o.lp.objective }

/-- The current frame after a dual-feasible LP raised the node lower bound. -/
def evalCn3 (ctx : SearchContext) (o : EvalIterOracle) (s : SearchState)
    (currnode0 : NodeData) (rest : List NodeData) : NodeData :=
  { evalCn2 ctx o s currnode0 rest with
    lower_bound := optMax (evalCn2 ctx o s currnode0 rest).lp_objective
      (evalCn2 ctx o s currnode0 rest).lower_bound }

/-- The domain after reduced-cost fixing. -/
def evalD4r (ctx : SearchContext) (o : EvalIterOracle) (s : SearchState)
    (currnode0 : NodeData) (rest : List NodeData) : HighsDomainModel :=
  (evalD3 ctx o s currnode0 rest).pushInferences o.redcostInfs
    o.redcostInfeasible

/-- The domain after the propagation round of the bound-exceeding branch. -/
def evalD4b (ctx : SearchContext) (o : EvalIterOracle) (s : SearchState)
    (currnode0 : NodeData) (rest : List NodeData) : HighsDomainModel :=
  (evalD3 ctx o s currnode0 rest).pushInferences o.beProp.inferences
    o.beProp.infeasible

/-- State handed to the final block when the initial propagation round left
the domain infeasible. -/
def evalLeafInf1 (ctx : SearchContext) (o : EvalIterOracle) (s : SearchState)
    (currnode0 : NodeData) (rest : List NodeData) : SearchState :=
  { evalS0 ctx o s currnode0 rest with
    localdom := evalDomain2 ctx currnode0 rest.head? s o,
    pcEvents := (evalS0 ctx o s currnode0 rest).pcEvents ++
      parentCutoffEvents rest.head?,
    nodestack := evalCn1 ctx o s currnode0 rest :: rest }

/-- State handed to the final block when the LP-driven propagation round or
the LP itself proved the node infeasible. -/
def evalLeafInf2 (ctx : SearchContext) (o : EvalIterOracle) (s : SearchState)
    (currnode0 : NodeData) (rest : List NodeData) : SearchState :=
  { evalS1 ctx o s currnode0 rest with
    localdom := evalD3 ctx o s currnode0 rest,
    pcEvents := (evalS1 ctx o s currnode0 rest).pcEvents ++
      parentCutoffEvents rest.head?,
    nodestack := evalCn1 ctx o s currnode0 rest :: rest }

/-- State after a scaled-optimal LP, with the enriched frame reseated
(integer-feasible hand-off, and the open fall-through without dual
feasibility or a cutoff). -/
def evalLeafPF (ctx : SearchContext) (o : EvalIterOracle) (s : SearchState)
    (currnode0 : NodeData) (rest : List NodeData) : SearchState :=
  { evalS2 ctx o s currnode0 rest with
    localdom := evalD3 ctx o s currnode0 rest,
    nodestack := evalCn2 ctx o s currnode0 rest :: rest }

/-- State after a dual-feasible LP raised the node lower bound (cutoff leaf
and the open leaf without an upper limit). -/
def evalLeafLB (ctx : SearchContext) (o : EvalIterOracle) (s : SearchState)
    (currnode0 : NodeData) (rest : List NodeData) : SearchState :=
  { evalS2 ctx o s currnode0 rest with
    localdom := evalD3 ctx o s currnode0 rest,
    nodestack := evalCn3 ctx o s currnode0 rest :: rest }

/-- State after reduced-cost fixing was pushed into the domain. -/
def evalLeafRC (ctx : SearchContext) (o : EvalIterOracle) (s : SearchState)
    (currnode0 : NodeData) (rest : List NodeData) : SearchState :=
  { evalS2 ctx o s currnode0 rest with
    localdom := evalD4r ctx o s currnode0 rest,
    nodestack := evalCn3 ctx o s currnode0 rest :: rest }

/-- State after the bound-exceeding propagation round. -/
def evalLeafBE (ctx : SearchContext) (o : EvalIterOracle) (s : SearchState)
    (currnode0 : NodeData) (rest : List NodeData) : SearchState :=
  { evalS2 ctx o s currnode0 rest with
    localdom := evalD4b ctx o s currnode0 rest,
    nodestack := evalCn2 ctx o s currnode0 rest :: rest }

/-- State of the open fall-through when the LP is neither scaled-optimal nor
infeasible. -/
def evalLeafErr (ctx : SearchContext) (o : EvalIterOracle) (s : SearchState)
    (currnode0 : NodeData) (rest : List NodeData) : SearchState :=
  { evalS1 ctx o s currnode0 rest with
    localdom := evalD3 ctx o s currnode0 rest,
    nodestack := evalCn1 ctx o s currnode0 rest :: rest }

/-- One pass of `HighsSearch::evaluateNode` over the current frame `currnode0`
and the remaining stack `rest`: propagate, possibly compute a stabilizer and
orbit-fix, record the parent inference observation, then classify via the
LP resolve; `recurse` is the recursive re-evaluation taken when
reduced-cost fixing changed bounds.  The incumbent hand-off and conflict
generation are external calls and are not modelled. -/
def evaluateNodeBody (recurse : SearchState → SearchState × NodeResult)
    (ctx : SearchContext) (o : EvalIterOracle) (s : SearchState)
    (currnode0 : NodeData) (rest : List NodeData) :
    SearchState × NodeResult :=
  if (evalDomain2 ctx currnode0 rest.head? s o).infeasibleFlag then
    finalizeEval (evalLeafInf1 ctx o s currnode0 rest)
      NodeResult.kDomainInfeasible
  else if (evalD3 ctx o s currnode0 rest).infeasibleFlag then
    finalizeEval (evalLeafInf2 ctx o s currnode0 rest)
      NodeResult.kDomainInfeasible
  else if o.lp.statusScaledOptimal then
    if o.lp.unscaledPrimalFeasible && o.lp.fracIntsEmpty then
      finalizeEval (evalLeafPF ctx o s currnode0 rest)
        NodeResult.kBoundExceeding
    else if o.lp.unscaledDualFeasible then
      if optGtOpt (evalCn3 ctx o s currnode0 rest).lower_bound
          (getCutoffBound ctx) then
        finalizeEval (evalLeafLB ctx o s currnode0 rest)
          NodeResult.kBoundExceeding
      else if ctx.mipUpperLimit.isSome then
        if (evalD4r ctx o s currnode0 rest).infeasibleFlag then
          finalizeEval (evalLeafRC ctx o s currnode0 rest)
            NodeResult.kBoundExceeding
        else if !o.redcostInfs.isEmpty then
          recurse (evalLeafRC ctx o s currnode0 rest)
        else (evalLeafRC ctx o s currnode0 rest, NodeResult.kOpen)
      else (evalLeafLB ctx o s currnode0 rest, NodeResult.kOpen)
    else if qGtOpt o.lp.objective (getCutoffBound ctx) then
      if (evalD4b ctx o s currnode0 rest).infeasibleFlag then
        finalizeEval (evalLeafBE ctx o s currnode0 rest)
          NodeResult.kBoundExceeding
      else (evalLeafBE ctx o s currnode0 rest, NodeResult.kOpen)
    else (evalLeafPF ctx o s currnode0 rest, NodeResult.kOpen)
  else if o.lp.statusInfeasible then
    finalizeEval (evalLeafInf2 ctx o s currnode0 rest)
      (if o.lp.modelStatusObjectiveBound then NodeResult.kBoundExceeding
        else NodeResult.kLpInfeasible)
  else (evalLeafErr ctx o s currnode0 rest, NodeResult.kOpen)

/-- Fuel-indexed transcription of `HighsSearch::evaluateNode`. -/
def evaluateNodeGo (ctx : SearchContext) (orc : ℕ → EvalIterOracle) :
    ℕ → ℕ → SearchState → SearchState × NodeResult
  | _, 0, s => (s, NodeResult.kOpen)
  | k, fuel + 1, s =>
      match s.nodestack with
      | [] => (s, NodeResult.kOpen)
      | currnode0 :: rest =>
          evaluateNodeBody (evaluateNodeGo ctx orc (k + 1) fuel) ctx (orc k)
            s currnode0 rest

theorem evaluateNodeGo_cons (ctx : SearchContext) (orc : ℕ → EvalIterOracle)
    (k fuel : ℕ) (top : NodeData) (rest : List NodeData) (s : SearchState)
    (hns : s.nodestack = top :: rest) :
    evaluateNodeGo ctx orc k (fuel + 1) s =
      evaluateNodeBody (evaluateNodeGo ctx orc (k + 1) fuel) ctx (orc k)
        s top rest := by
  obtain ⟨ns, ld, dep, tw, nn, lpi, hlpi, slpi, pce, q, mn, mp, mt, mh, ms⟩
    := s
  simp only at hns
  cases hns
  rfl

/-- `HighsSearch::evaluateNode()`, with enough fuel for the recursion on
reduced-cost fixing (the oracle stream is finite in any run). -/
def evaluateNode (ctx : SearchContext) (orc : ℕ → EvalIterOracle) (fuel : ℕ)
    (s : SearchState) : SearchState × NodeResult :=
  evaluateNodeGo ctx orc 0 fuel s

/-- Read of the first `n` entries of a caller-supplied buffer; entries past the
end of the buffer are out-of-bounds reads, marked `none`. -/
def bufAssign {α : Type} (buf : List α) (n : ℕ) : List (Option α) :=
  (List.range n).map (fun i => buf[i]?)

/-- The `HighsLp` fields assigned by the C entry point `callhighs`
(`src/interfaces/MinimalAPI.cpp`).  Buffer contents are optional values so
that an out-of-bounds read is observable as `none`. -/
structure HighsLpModel where
  numCol_ : ℕ := 0
  numRow_ : ℕ := 0
  numInt_ : ℕ := 0
  colCost_ : List (Option ℚ) := []
  colLower_ : List (Option ℚ) := []
  colUpper_ : List (Option ℚ) := []
  rowLower_ : List (Option ℚ) := []
  rowUpper_ : List (Option ℚ) := []
  Astart_ : List (Option ℤ) := []
  Aindex_ : List (Option ℤ) := []
  Avalue_ : List (Option ℚ) := []

/-- The LP constructed by `callhighs`: `std::vector::assign(first, last)`
replaces both contents and size, so each field's final contents are exactly
the assigned ranges; `rowUpper_` is assigned from `rowupper` up to
`rowupper + numcol` as in the source. -/
def callhighsLp (numcol numrow : ℕ)
    (colcost collower colupper rowlower rowupper : List ℚ)
    (astart aindex : List ℤ) (avalue : List ℚ) : HighsLpModel :=
  let localNumNz : ℤ := ((astart.get? numcol).getD 0)
  { numCol_ := numcol,
    numRow_ := numrow,
    numInt_ := 0,
    colCost_ := bufAssign colcost numcol,
    colLower_ := bufAssign collower numcol,
    colUpper_ := bufAssign colupper numcol,
    rowLower_ := bufAssign rowlower numrow,
    rowUpper_ := bufAssign rowupper numcol,
    Astart_ := bufAssign astart (numcol + 1),
    Aindex_ := bufAssign aindex localNumNz.toNat,
    Avalue_ := bufAssign avalue localNumNz.toNat }

theorem bufAssign_length {α : Type} (buf : List α) (n : ℕ) :
    (bufAssign buf n).length = n := by
  simp [bufAssign]

theorem bufAssign_mem_none {α : Type} (buf : List α) (n : ℕ)
    (h : buf.length < n) : none ∈ bufAssign buf n := by
  refine List.mem_map.mpr ⟨buf.length, ?_, ?_⟩
  · exact List.mem_range.mpr h
  · exact List.getElem?_eq_none (Nat.le_refl _)

/-- Claim C10: in `callhighs` the row lower bounds are assigned from the first
`numrow` entries of `rowlower` but the row upper bounds from the first
`numcol` entries of `rowupper`; hence whenever `numrow ≠ numcol` the
resulting `rowUpper_` vector has `numcol` elements, disagreeing with
`numRow_` and with `rowLower_`, and when `numcol > numrow` entries beyond
the caller's `numrow`-sized `rowupper` buffer are read (observable as
`none`). -/
theorem callhighs_row_bound_mismatch (numcol numrow : ℕ)
    (colcost collower colupper rowlower rowupper : List ℚ)
    (astart aindex : List ℤ) (avalue : List ℚ)
    (hbuf : rowupper.length = numrow) :
    (callhighsLp numcol numrow colcost collower colupper rowlower rowupper
        astart aindex avalue).rowLower_ = bufAssign rowlower numrow ∧
    (callhighsLp numcol numrow colcost collower colupper rowlower rowupper
        astart aindex avalue).rowUpper_ = bufAssign rowupper numcol ∧
    (callhighsLp numcol numrow colcost collower colupper rowlower rowupper
        astart aindex avalue).rowUpper_.length = numcol ∧
    (numrow ≠ numcol →
      (callhighsLp numcol numrow colcost collower colupper rowlower rowupper
          astart aindex avalue).rowUpper_.length ≠
        (callhighsLp numcol numrow colcost collower colupper rowlower rowupper
          astart aindex avalue).numRow_ ∧
      (callhighsLp numcol numrow colcost collower colupper rowlower rowupper
          astart aindex avalue).rowUpper_.length ≠
        (callhighsLp numcol numrow colcost collower colupper rowlower rowupper
          astart aindex avalue).rowLower_.length) ∧
    (numrow < numcol →
      none ∈ (callhighsLp numcol numrow colcost collower colupper rowlower
        rowupper astart aindex avalue).rowUpper_) := by
  refine ⟨rfl, rfl, bufAssign_length _ _, fun hne => ⟨?_, ?_⟩, fun hlt => ?_⟩
  · simpa [callhighsLp, bufAssign_length] using fun h => hne h.symm
  · simpa [callhighsLp, bufAssign_length] using fun h => hne h.symm
  · show none ∈ bufAssign rowupper numcol
    exact bufAssign_mem_none _ _ (hbuf ▸ hlt)

theorem callhighs_row_bound_mismatch_witness :
    (([(5 : ℚ)] : List ℚ).length = 1) ∧
    ((callhighsLp 2 1 [] [] [] [] [(5 : ℚ)] [] [] []).rowLower_ =
        bufAssign ([] : List ℚ) 1 ∧
      (callhighsLp 2 1 [] [] [] [] [(5 : ℚ)] [] [] []).rowUpper_ =
        bufAssign [(5 : ℚ)] 2 ∧
      (callhighsLp 2 1 [] [] [] [] [(5 : ℚ)] [] [] []).rowUpper_.length = 2 ∧
      ((1 : ℕ) ≠ 2 →
        (callhighsLp 2 1 [] [] [] [] [(5 : ℚ)] [] [] []).rowUpper_.length ≠
          (callhighsLp 2 1 [] [] [] [] [(5 : ℚ)] [] [] []).numRow_ ∧
        (callhighsLp 2 1 [] [] [] [] [(5 : ℚ)] [] [] []).rowUpper_.length ≠
          (callhighsLp 2 1 [] [] [] [] [(5 : ℚ)] [] [] []).rowLower_.length) ∧
      ((1 : ℕ) < 2 →
        none ∈ (callhighsLp 2 1 [] [] [] [] [(5 : ℚ)] [] [] []).rowUpper_)) :=
  ⟨rfl, callhighs_row_bound_mismatch 2 1 [] [] [] [] [(5 : ℚ)] [] [] [] rfl⟩

/-- Claim C1: in the backtracker's flip of a frame with one open subtree, a
Lower-bound branch with bound value `v` becomes an Upper bound of
`⌊v - 0.5⌋` on the same column, an Upper-bound branch becomes a Lower bound
of `⌈v + 0.5⌉`, and when the pre-flip bound value equalled the branching
point (a fallback branch) the branching point is set to the flipped bound
value; moreover `backtrack` applies exactly this flip when its unwinding
loop reaches such a frame. -/
theorem backtrack_flips_branching_decision (ctx : SearchContext)
    (s : SearchState) (top : NodeData) (rest : List NodeData)
    (orc : ℕ → BacktrackIterOracle) (k fuel : ℕ)
    (hstack : s.nodestack = top :: rest) (hopen : top.opensubtrees = 1) :
    (top.branchingdecision.boundtype = HighsBoundType.kLower →
      (flipNodeBranching top).branchingdecision =
        ⟨qFloor (top.branchingdecision.boundval - 1/2),
         top.branchingdecision.column, HighsBoundType.kUpper⟩) ∧
    (top.branchingdecision.boundtype = HighsBoundType.kUpper →
      (flipNodeBranching top).branchingdecision =
        ⟨qCeil (top.branchingdecision.boundval + 1/2),
         top.branchingdecision.column, HighsBoundType.kLower⟩) ∧
    (flipNodeBranching top).opensubtrees = 0 ∧
    (top.branchingdecision.boundval = top.branching_point →
      (flipNodeBranching top).branching_point =
        (flipNodeBranching top).branchingdecision.boundval) ∧
    (backtrackLoop ctx orc k (fuel + 1) s =
      if (backtrackFlipStep ctx s top rest (orc k)).2 then
        backtrackLoop ctx orc (k + 1) fuel
          (backtrackFlipStep ctx s top rest (orc k)).1
      else ((backtrackFlipStep ctx s top rest (orc k)).1, true)) ∧
    (∃ pre, (backtrackFlipStep ctx s top rest (orc k)).1.nodestack =
      pre ++ flipNodeBranching top :: rest) := by
  have hne : top.opensubtrees ≠ 0 := by rw [hopen]; exact one_ne_zero
  refine ⟨?_, ?_, ?_, ?_, ?_, ?_⟩
  · intro h
    simp [flipNodeBranching, h]
    split <;> rfl
  · intro h
    have h' : top.branchingdecision.boundtype ≠ HighsBoundType.kLower := by
      rw [h]; exact fun hc => HighsBoundType.noConfusion hc
    simp [flipNodeBranching, h']
    split <;> rfl
  · simp only [flipNodeBranching]
    split <;> split <;> rfl
  · intro h
    simp [flipNodeBranching, h]
  · simp only [backtrackLoop, hstack, if_neg hne]
  · simp only [backtrackFlipStep]
    split
    · exact ⟨[], rfl⟩
    · exact ⟨[_], rfl⟩

def c1TopNode : NodeData :=
  { branchingdecision := ⟨2, 0, HighsBoundType.kLower⟩,
    branching_point := 3/2, opensubtrees := 1 }

def c1State : SearchState := { nodestack := [c1TopNode] }

theorem backtrack_flips_branching_decision_witness :
    (c1State.nodestack = c1TopNode :: []) ∧ c1TopNode.opensubtrees = 1 ∧
    (c1TopNode.branchingdecision.boundtype = HighsBoundType.kLower →
      (flipNodeBranching c1TopNode).branchingdecision =
        ⟨qFloor (c1TopNode.branchingdecision.boundval - 1/2),
         c1TopNode.branchingdecision.column, HighsBoundType.kUpper⟩) :=
  ⟨rfl, rfl,
    (backtrack_flips_branching_decision {} c1State c1TopNode []
      (fun _ => {}) 0 0 rfl rfl).1⟩

theorem orbitsValidInChildNode_congr (ctx : SearchContext) (a b : NodeData)
    (chg : HighsDomainChange) (h : a.stabilizerOrbits = b.stabilizerOrbits) :
    orbitsValidInChildNode ctx a chg = orbitsValidInChildNode ctx b chg := by
  simp only [orbitsValidInChildNode, h]

theorem flipNodeBranching_stabilizerOrbits (n : NodeData) :
    (flipNodeBranching n).stabilizerOrbits = n.stabilizerOrbits := by
  simp only [flipNodeBranching]
  split <;> split <;> rfl

theorem pushChildFrame_head_orbits (ctx : SearchContext) (s : SearchState)
    (cur : NodeData) (rest : List NodeData) :
    (pushChildFrame ctx s cur rest).nodestack.head?.map
        (fun f => f.stabilizerOrbits) =
      some (if orbitsValidInChildNode ctx cur cur.branchingdecision then
          cur.stabilizerOrbits
        else none) := by
  simp [pushChildFrame]

theorem orbitsValidInChildNode_characterization (ctx : SearchContext)
    (n : NodeData) (chg : HighsDomainChange) :
    orbitsValidInChildNode ctx n chg = true ↔
      (n.stabilizerOrbits = none ∨
        (∃ so, n.stabilizerOrbits = some so ∧
          (so.orbitCols = [] ∨ so.isStabilized chg.column = true)) ∨
        (chg.boundtype = HighsBoundType.kUpper ∧
          ctx.isGlobalBinaryCol chg.column = true)) := by
  cases h : n.stabilizerOrbits with
  | none => simp [orbitsValidInChildNode, h]
  | some so =>
      simp only [orbitsValidInChildNode, h]
      by_cases h1 : so.orbitCols = [] <;>
        by_cases h2 : so.isStabilized chg.column = true <;>
          by_cases h3 : chg.boundtype = HighsBoundType.kUpper <;>
            by_cases h4 : ctx.isGlobalBinaryCol chg.column = true <;>
              simp [List.isEmpty_iff, h1, h2, h3, h4]

/-- Claim C2: a child frame created by a branching operation (`branch`,
`branchDownwards`, `branchUpwards`, or a backtrack flip) carries the parent
frame's stabilizer orbits exactly when `orbitsValidInChildNode` holds for
the branching change (otherwise a null orbit pointer), and
`orbitsValidInChildNode` holds iff the parent has no stabilizer, or its
orbit column set is empty, or the branched column is stabilized, or the
branch is a down branch (upper-bound change) on a globally binary column;
carrying the parent's orbits is equivalent to `orbitsValidInChildNode`. -/
theorem child_inherits_orbits_iff (ctx : SearchContext) (s : SearchState)
    (cur : NodeData) (rest : List NodeData) (col : ℤ) (newub newlb bp : ℚ)
    (dc : HighsDomainChange) (o : BacktrackIterOracle)
    (hstack : s.nodestack = cur :: rest) :
    (∀ (n : NodeData) (chg : HighsDomainChange),
      orbitsValidInChildNode ctx n chg = true ↔
        (n.stabilizerOrbits = none ∨
          (∃ so, n.stabilizerOrbits = some so ∧
            (so.orbitCols = [] ∨ so.isStabilized chg.column = true)) ∨
          (chg.boundtype = HighsBoundType.kUpper ∧
            ctx.isGlobalBinaryCol chg.column = true))) ∧
    ((branchDownwards ctx s col newub bp).nodestack.head?.map
        (fun f => f.stabilizerOrbits) =
      some (if orbitsValidInChildNode ctx cur ⟨newub, col, HighsBoundType.kUpper⟩
            then cur.stabilizerOrbits else none)) ∧
    ((branchUpwards ctx s col newlb bp).nodestack.head?.map
        (fun f => f.stabilizerOrbits) =
      some (if orbitsValidInChildNode ctx cur ⟨newlb, col, HighsBoundType.kLower⟩
            then cur.stabilizerOrbits else none)) ∧
    ((branchWithSelectedDecision ctx s dc bp).nodestack.head?.map
        (fun f => f.stabilizerOrbits) =
      some (if orbitsValidInChildNode ctx cur dc
            then cur.stabilizerOrbits else none)) ∧
    ((backtrackFlipStep ctx s cur rest o).2 = false →
      (backtrackFlipStep ctx s cur rest o).1.nodestack.head?.map
          (fun f => f.stabilizerOrbits) =
        some (if orbitsValidInChildNode ctx (flipNodeBranching cur)
                  (flipNodeBranching cur).branchingdecision
              then cur.stabilizerOrbits else none)) ∧
    (∀ (n : NodeData) (chg : HighsDomainChange),
      (if orbitsValidInChildNode ctx n chg then n.stabilizerOrbits else none) =
          n.stabilizerOrbits ↔
        orbitsValidInChildNode ctx n chg = true) := by
  refine ⟨orbitsValidInChildNode_characterization ctx, ?_, ?_, ?_, ?_, ?_⟩
  · cases hso : cur.stabilizerOrbits <;>
      simp [branchDownwards, hstack, pushChildFrame, orbitsValidInChildNode,
        hso]
  · cases hso : cur.stabilizerOrbits <;>
      simp [branchUpwards, hstack, pushChildFrame, orbitsValidInChildNode, hso]
  · cases hso : cur.stabilizerOrbits <;>
      simp [branchWithSelectedDecision, hstack, pushChildFrame,
        orbitsValidInChildNode, hso]
  · intro hpush
    simp only [backtrackFlipStep] at hpush ⊢
    by_cases hc : flipPrune2 ctx s.localdom (flipNodeBranching cur) o = true
    · rw [if_pos hc] at hpush
      exact absurd hpush (by simp)
    · rw [if_neg hc]
      simp [flipNodeBranching_stabilizerOrbits]
  · intro n chg
    constructor
    · intro h
      by_cases hv : orbitsValidInChildNode ctx n chg = true
      · exact hv
      · rw [if_neg hv] at h
        exact absurd ((orbitsValidInChildNode_characterization ctx n chg).mpr
          (Or.inl h.symm)) hv
    · intro hv
      rw [if_pos hv]

def c2Cur : NodeData := { stabilizerOrbits := some ⟨[3], [3]⟩ }

def c2State : SearchState := { nodestack := [c2Cur] }

theorem child_inherits_orbits_iff_witness :
    (c2State.nodestack = c2Cur :: []) ∧
    ((branchDownwards {} c2State 3 1 (3/2)).nodestack.head?.map
        (fun f => f.stabilizerOrbits) =
      some (if orbitsValidInChildNode {} c2Cur ⟨1, 3, HighsBoundType.kUpper⟩
            then c2Cur.stabilizerOrbits else none)) :=
  ⟨rfl, (child_inherits_orbits_iff {} c2State c2Cur [] 3 1 1 (3/2)
    ⟨1, 3, HighsBoundType.kLower⟩ {} rfl).2.1⟩

def c3Ctx : SearchContext :=
  { symColumnTracked := fun _ => true, globalDomIsBinary := fun _ => true,
    globalOrbits := some ⟨[0], []⟩ }

def c3Node : OpenNode :=
  { domchgstack := [⟨0, 0, HighsBoundType.kUpper⟩], branchings := [0],
    lower_bound := none, estimate := none, depth := 3 }

/-- Claim C3 is false as stated: seating this queued node, whose single
branching change is a down branch (upper bound `0`) on a symmetry-tracked
globally binary column, attaches the global orbits to the new frame,
although the specification's condition for attachment (every tracked
branching change is a binary-set-to-one lower bound or is not on a binary
column) evaluates to false on it. -/
theorem installNode_spec_condition_counterexample :
    ((installNode c3Ctx {} c3Node).nodestack.head?.map
        (fun f => f.stabilizerOrbits)) = some (some ⟨[0], []⟩) ∧
    specGlobalOrbitsValid c3Ctx c3Node.domchgstack c3Node.branchings
      = false := by
  constructor
  · rfl
  · rfl

theorem branchingChangeKeepsGlobalOrbits_iff (ctx : SearchContext)
    (stack : List HighsDomainChange) (i : ℕ) :
    branchingChangeKeepsGlobalOrbits ctx stack i = true ↔
      ∀ dc, stack[i]? = some dc → ctx.symColumnTracked dc.column = true →
        ctx.globalDomIsBinary dc.column = true ∧
          ¬(dc.boundtype = HighsBoundType.kLower ∧ dc.boundval = 1) := by
  unfold branchingChangeKeepsGlobalOrbits
  cases hdc : stack[i]? with
  | none => simp [hdc]
  | some dc =>
      by_cases h1 : ctx.symColumnTracked dc.column = true <;>
        by_cases h2 : ctx.globalDomIsBinary dc.column = true <;>
          by_cases h3 : dc.boundtype = HighsBoundType.kLower <;>
            by_cases h4 : dc.boundval = (1 : ℚ) <;>
              simp [hdc, h1, h2, h3, h4]

/-- Claim C3 amended: when global orbits have been computed, `installNode`
attaches them to the seated frame exactly when every branching domain
change on a symmetry-tracked column is on a globally binary column and is
not setting it to `1` via a lower bound (the claim as stated negates this
condition); otherwise the frame is seated with a null orbit pointer. -/
theorem installNode_attaches_orbits_iff (ctx : SearchContext)
    (s : SearchState) (node : OpenNode) (g : StabilizerOrbits)
    (hg : ctx.globalOrbits = some g) :
    (((installNode ctx s node).nodestack.head?.map
        (fun f => f.stabilizerOrbits)) = some (some g) ↔
      globalSymmetriesValidCheck ctx node.domchgstack node.branchings
        = true) ∧
    (globalSymmetriesValidCheck ctx node.domchgstack node.branchings = true ↔
      ∀ i ∈ node.branchings, ∀ dc, node.domchgstack[i]? = some dc →
        ctx.symColumnTracked dc.column = true →
        ctx.globalDomIsBinary dc.column = true ∧
          ¬(dc.boundtype = HighsBoundType.kLower ∧ dc.boundval = 1)) := by
  constructor
  · simp only [installNode, hg, List.head?_cons, Option.map_some']
    by_cases hchk : globalSymmetriesValidCheck ctx node.domchgstack
        node.branchings = true
    · simp [hchk]
    · simp [hchk]
  · simp only [globalSymmetriesValidCheck, List.all_eq_true,
      branchingChangeKeepsGlobalOrbits_iff]

theorem installNode_attaches_orbits_iff_witness :
    (c3Ctx.globalOrbits = some ⟨[0], []⟩) ∧
    (((installNode c3Ctx {} c3Node).nodestack.head?.map
        (fun f => f.stabilizerOrbits)) = some (some ⟨[0], []⟩) ↔
      globalSymmetriesValidCheck c3Ctx c3Node.domchgstack c3Node.branchings
        = true) :=
  ⟨rfl, (installNode_attaches_orbits_iff c3Ctx {} c3Node ⟨[0], []⟩ rfl).1⟩

/-- Claim C5: in `branch`, when the minimum-reliability parameter is positive
the strong-branching iteration budget is
`100000 + (total - heuristic - strongbranching)/2` (floor division, the
`>> 1` of the source); exceeding the budget sets the minimum reliability to
zero; exceeding half of it reduces it linearly toward one by the ratio of
the excess over the remaining half; and a degeneracy factor of at least ten
sets it to zero regardless. -/
theorem branch_reliability_budget (minrel totalLp heurLp sbIters : ℤ)
    (degeneracyFac : ℚ) (hpos : 0 < minrel) :
    (branchMinReliableUpdate minrel totalLp heurLp sbIters degeneracyFac).1 =
      sbMaxItersOf totalLp heurLp sbIters ∧
    sbMaxItersOf totalLp heurLp sbIters =
      100000 + (totalLp - heurLp - sbIters) / 2 ∧
    ((10 : ℚ) ≤ degeneracyFac →
      (branchMinReliableUpdate minrel totalLp heurLp sbIters
        degeneracyFac).2 = 0) ∧
    (degeneracyFac < 10 →
      (sbMaxItersOf totalLp heurLp sbIters < sbIters →
        (branchMinReliableUpdate minrel totalLp heurLp sbIters
          degeneracyFac).2 = 0) ∧
      (Int.tdiv (sbMaxItersOf totalLp heurLp sbIters) 2 < sbIters →
        sbIters ≤ sbMaxItersOf totalLp heurLp sbIters →
        (branchMinReliableUpdate minrel totalLp heurLp sbIters
          degeneracyFac).2 =
          min minrel (minrelReduced minrel
            (sbMaxItersOf totalLp heurLp sbIters) sbIters)) ∧
      (0 ≤ sbMaxItersOf totalLp heurLp sbIters →
        sbIters ≤ Int.tdiv (sbMaxItersOf totalLp heurLp sbIters) 2 →
        (branchMinReliableUpdate minrel totalLp heurLp sbIters
          degeneracyFac).2 = minrel)) := by
  refine ⟨?_, ?_, ?_, ?_⟩
  · simp [branchMinReliableUpdate, hpos]
  · rw [sbMaxItersOf, Int.shiftRight_eq_div_pow]
    norm_num
  · intro hdeg
    simp [branchMinReliableUpdate, hpos, hdeg]
  · intro hdeg
    have hdeg' : ¬((10 : ℚ) ≤ degeneracyFac) := not_le.mpr hdeg
    refine ⟨?_, ?_, ?_⟩
    · intro hlt
      simp [branchMinReliableUpdate, hpos, hdeg', hlt]
    · intro hhalf hle
      have hnlt : ¬(sbMaxItersOf totalLp heurLp sbIters < sbIters) :=
        not_lt.mpr hle
      simp [branchMinReliableUpdate, hpos, hdeg', hnlt, hhalf]
    · intro h0 hle
      have hnlt : ¬(Int.tdiv (sbMaxItersOf totalLp heurLp sbIters) 2
          < sbIters) := not_lt.mpr hle
      have heq : Int.tdiv (sbMaxItersOf totalLp heurLp sbIters) 2 =
          sbMaxItersOf totalLp heurLp sbIters / 2 :=
        Int.tdiv_eq_ediv h0 (by omega)
      have hhalf : sbMaxItersOf totalLp heurLp sbIters / 2 ≤
          sbMaxItersOf totalLp heurLp sbIters := Int.ediv_le_self 2 h0
      have hnlt2 : ¬(sbMaxItersOf totalLp heurLp sbIters < sbIters) := by
        omega
      simp [branchMinReliableUpdate, hpos, hdeg', hnlt, hnlt2]

theorem branch_reliability_budget_witness :
    ((0 : ℤ) < 5) ∧
    ((branchMinReliableUpdate 5 0 0 0 0).1 = sbMaxItersOf 0 0 0) :=
  ⟨by decide, (branch_reliability_budget 5 0 0 0 0 (by decide)).1⟩

theorem trial_backtrack_restore (d : HighsDomainModel)
    (dc : HighsDomainChange) (infs : List HighsDomainChange) (b : Bool) :
    ((d.changeBoundBranching dc).pushInferences infs b).backtrackDom =
      { d with infeasibleFlag := false } := by
  simp [HighsDomainModel.changeBoundBranching, HighsDomainModel.pushInferences,
    HighsDomainModel.backtrackDom, List.append_assoc, List.take_left]

/-- Claim C4: in the reliability probing loop, a trial bound change whose
propagation is infeasible makes the driver record a cutoff observation for
that column and direction, undo the trial change, commit the opposite
branch as a new child frame, close the branching frame
(`opensubtrees = 0`, `skipDepthCount = 1`), decrement the depth offset and
return `-1`; stated for the down probe and symmetrically for the up
probe. -/
theorem probe_infeasible_commits_opposite (ctx : SearchContext)
    (s : SearchState) (col : ℤ) (fracval : ℚ) (o : ProbeOracle)
    (top : NodeData) (rest : List NodeData)
    (hstack : s.nodestack = top :: rest)
    (hinf : o.prop.infeasible = true) :
    ((probeDown ctx s col fracval o).2 = some (-1) ∧
      (probeDown ctx s col fracval o).1.pcEvents =
        s.pcEvents ++ [PCEvent.cutoffObs col false] ∧
      (probeDown ctx s col fracval o).1.localdom.domchgStack =
        s.localdom.domchgStack ++
          [⟨qCeil fracval, col, HighsBoundType.kLower⟩] ∧
      (probeDown ctx s col fracval o).1.depthoffset = s.depthoffset - 1 ∧
      (∃ child parentFrame,
        (probeDown ctx s col fracval o).1.nodestack =
          child :: parentFrame :: rest ∧
        parentFrame.opensubtrees = 0 ∧ parentFrame.skipDepthCount = 1 ∧
        parentFrame.branchingdecision =
          ⟨qCeil fracval, col, HighsBoundType.kLower⟩ ∧
        parentFrame.branching_point = fracval ∧
        child.domgchgStackPos = s.localdom.domchgStack.length)) ∧
    ((probeUp ctx s col fracval o).2 = some (-1) ∧
      (probeUp ctx s col fracval o).1.pcEvents =
        s.pcEvents ++ [PCEvent.cutoffObs col true] ∧
      (probeUp ctx s col fracval o).1.localdom.domchgStack =
        s.localdom.domchgStack ++
          [⟨qFloor fracval, col, HighsBoundType.kUpper⟩] ∧
      (probeUp ctx s col fracval o).1.depthoffset = s.depthoffset - 1 ∧
      (∃ child parentFrame,
        (probeUp ctx s col fracval o).1.nodestack =
          child :: parentFrame :: rest ∧
        parentFrame.opensubtrees = 0 ∧ parentFrame.skipDepthCount = 1 ∧
        parentFrame.branchingdecision =
          ⟨qFloor fracval, col, HighsBoundType.kUpper⟩ ∧
        parentFrame.branching_point = fracval ∧
        child.domgchgStackPos = s.localdom.domchgStack.length)) := by
  have hflag : ∀ dc : HighsDomainChange,
      ((s.localdom.changeBoundBranching dc).pushInferences
        o.prop.inferences o.prop.infeasible).infeasibleFlag = true := by
    intro dc
    simp [HighsDomainModel.changeBoundBranching,
      HighsDomainModel.pushInferences, hinf]
  constructor
  · simp only [probeDown, hstack, hflag, if_true, Bool.false_eq_true,
      if_false, trial_backtrack_restore, commitOppositeUp, branchUpwards,
      pushChildFrame]
    refine ⟨trivial, trivial, ?_, trivial, ?_⟩
    · simp [HighsDomainModel.changeBoundBranching]
    · exact ⟨_, _, rfl, rfl, rfl, rfl, rfl, rfl⟩
  · simp only [probeUp, hstack, hflag, if_true, Bool.false_eq_true,
      if_false, trial_backtrack_restore, commitOppositeDown, branchDownwards,
      pushChildFrame]
    refine ⟨trivial, trivial, ?_, trivial, ?_⟩
    · simp [HighsDomainModel.changeBoundBranching]
    · exact ⟨_, _, rfl, rfl, rfl, rfl, rfl, rfl⟩

def c4Top : NodeData := {}

def c4State : SearchState := { nodestack := [c4Top] }

def c4Oracle : ProbeOracle := { prop := { infeasible := true } }

theorem probe_infeasible_commits_opposite_witness :
    (c4State.nodestack = c4Top :: []) ∧ (c4Oracle.prop.infeasible = true) ∧
    ((probeDown {} c4State 0 (1/2) c4Oracle).2 = some (-1)) :=
  ⟨rfl, rfl, (probe_infeasible_commits_opposite {} c4State 0 (1/2) c4Oracle
    c4Top [] rfl rfl).1.1⟩

theorem flipNodeBranching_lower_bound (n : NodeData) :
    (flipNodeBranching n).lower_bound = n.lower_bound := by
  simp only [flipNodeBranching]
  split <;> split <;> rfl

theorem flipNodeBranching_estimate (n : NodeData) :
    (flipNodeBranching n).estimate = n.estimate := by
  simp only [flipNodeBranching]
  split <;> split <;> rfl

theorem domain_clear_flag_eq (d : HighsDomainModel)
    (h : d.infeasibleFlag = false) :
    ({ d with infeasibleFlag := false } : HighsDomainModel) = d := by
  cases d
  simp_all

theorem flipDomain2_backtrackDom (ctx : SearchContext) (d : HighsDomainModel)
    (cn : NodeData) (o : BacktrackIterOracle) :
    (flipDomain2 ctx d cn o).backtrackDom =
      { d with infeasibleFlag := false } := by
  unfold flipDomain2 flipDomain1 flipDomain0
  split <;> [skip; skip] <;> split <;>
    simp [HighsDomainModel.changeBoundBranching,
      HighsDomainModel.pushInferences, HighsDomainModel.backtrackDom,
      List.append_assoc, List.take_left]

theorem flipPrune2_false (ctx : SearchContext) (d : HighsDomainModel)
    (cn : NodeData) (o : BacktrackIterOracle)
    (hlb : optGtOpt cn.lower_bound (getCutoffBound ctx) = false)
    (hflag : d.infeasibleFlag = false) (hchg : o.chgInfeasible = false)
    (hprop : o.flipProp.infeasible = false) (horb : o.orbitalInfeas = false) :
    flipPrune2 ctx d cn o = false := by
  have h0 : flipPrune0 ctx d cn o = false := by
    simp [flipPrune0, flipDomain0, HighsDomainModel.changeBoundBranching,
      hlb, hflag, hchg]
  have h1 : flipPrune1 ctx d cn o = false := by
    simp [flipPrune1, flipDomain1, h0, flipDomain0,
      HighsDomainModel.changeBoundBranching,
      HighsDomainModel.pushInferences, hlb, hflag, hchg, hprop]
  simp [flipPrune2, flipDomain2, h1, flipDomain1, h0, flipDomain0,
    HighsDomainModel.changeBoundBranching, HighsDomainModel.pushInferences,
    hlb, hflag, hchg, hprop, horb]
  split <;> rfl

def c6Ctx : SearchContext :=
  { getScoreDown := fun c _ => if c = 2 then 10 else 0,
    getScoreUp := fun _ _ => 0 }

def c6Top : NodeData :=
  { branchingdecision := ⟨1, 5, HighsBoundType.kLower⟩,
    branching_point := 1/2, opensubtrees := 1 }

def c6Anc1 : NodeData :=
  { branchingdecision := ⟨1, 1, HighsBoundType.kLower⟩,
    branching_point := 1/2, opensubtrees := 1 }

def c6Anc2 : NodeData :=
  { branchingdecision := ⟨1, 2, HighsBoundType.kLower⟩,
    branching_point := 1/2, opensubtrees := 1 }

def c6State : SearchState := { nodestack := [c6Top, c6Anc1, c6Anc2] }

/-- Claim C6 is false as stated: in this plunge flip the farther open
ancestor's inactive-minus-active score gap (10) exceeds the sibling's score
plus feastol, so the specification's "some still-open ancestor" condition
holds, yet the driver consults only the deepest open ancestor (gap 0) and
descends instead of parking: the flip step pushes a child and the queue
stays empty. -/
theorem plunge_park_spec_counterexample :
    plungeNodeToQueueSpec c6Ctx [c6Anc1, c6Anc2]
        (plungeNodeScore c6Ctx c6Top) = true ∧
    (backtrackPlungeFlipStep c6Ctx c6State c6Top [c6Anc1, c6Anc2] {}).2
        = false ∧
    (backtrackPlungeFlipStep c6Ctx c6State c6Top [c6Anc1, c6Anc2] {}).1.queue
        = [] := by
  have h1 : ancestorScoreGap c6Ctx c6Anc1 = 0 := by
    norm_num [ancestorScoreGap, c6Ctx, c6Anc1]
  have h2 : ancestorScoreGap c6Ctx c6Anc2 = 10 := by
    norm_num [ancestorScoreGap, c6Ctx, c6Anc2]
  have h3 : plungeNodeScore c6Ctx c6Top = 0 := by
    norm_num [plungeNodeScore, c6Ctx, c6Top]
  have hfeas : c6Ctx.feastol = 1/1000000 := rfl
  have hpark : plungeNodeToQueue c6Ctx [c6Anc1, c6Anc2]
      (plungeNodeScore c6Ctx c6Top) = false := by
    simp only [plungeNodeToQueue, List.find?]
    rw [show (c6Anc1.opensubtrees != 0) = true from rfl]
    simp only [h1, h3, hfeas]
    norm_num
  have hprune : flipPrune2 c6Ctx c6State.localdom (flipNodeBranching c6Top)
      {} = false := by
    refine flipPrune2_false c6Ctx _ _ _ ?_ rfl rfl rfl rfl
    rw [flipNodeBranching_lower_bound]
    rfl
  refine ⟨?_, ?_, ?_⟩
  · simp only [plungeNodeToQueueSpec, List.any_cons, List.any_nil, h1, h2, h3,
      hfeas]
    norm_num [c6Anc2]
  · simp only [backtrackPlungeFlipStep, hprune, Bool.false_eq_true, if_false,
      hpark]
  · simp only [backtrackPlungeFlipStep, hprune, Bool.false_eq_true, if_false,
      hpark]
    rfl

/-- Claim C6 amended: in the plunge flip step, after the flipped sibling
survives propagation, it is parked into the shared queue (as reduced
domain-change stack, branching positions, lower bound, estimate and depth)
if and only if the DEEPEST still-open ancestor frame exists and its
inactive-direction score exceeds its active-direction score by more than
the sibling's score plus feastol — the scan breaks at the first open
ancestor, so farther ancestors are never consulted; otherwise a child
frame is pushed and the plunge continues. -/
theorem plunge_park_iff (ctx : SearchContext) (s : SearchState)
    (top : NodeData) (rest : List NodeData) (o : BacktrackIterOracle)
    (hlb : optGtOpt top.lower_bound (getCutoffBound ctx) = false)
    (hflag : s.localdom.infeasibleFlag = false)
    (hchg : o.chgInfeasible = false) (hprop : o.flipProp.infeasible = false)
    (horb : o.orbitalInfeas = false) :
    ((backtrackPlungeFlipStep ctx s top rest o).1.queue =
        s.queue ++ [⟨s.localdom.domchgStack, s.localdom.branchPos.reverse,
          top.lower_bound, top.estimate, getCurrentDepth s + 1⟩] ↔
      plungeNodeToQueue ctx rest (plungeNodeScore ctx top) = true) ∧
    (plungeNodeToQueue ctx rest (plungeNodeScore ctx top) = false →
      ∃ child, (backtrackPlungeFlipStep ctx s top rest o).1.nodestack =
        child :: flipNodeBranching top :: rest ∧
        (backtrackPlungeFlipStep ctx s top rest o).1.queue = s.queue) ∧
    (∀ q : ℚ, plungeNodeToQueue ctx rest q = true ↔
      ∃ anc, rest.find? (fun nd => nd.opensubtrees != 0) = some anc ∧
        q + ctx.feastol < ancestorScoreGap ctx anc) := by
  have hlb' : optGtOpt (flipNodeBranching top).lower_bound
      (getCutoffBound ctx) = false := by
    rw [flipNodeBranching_lower_bound]
    exact hlb
  have hprune : flipPrune2 ctx s.localdom (flipNodeBranching top) o = false :=
    flipPrune2_false ctx _ _ _ hlb' hflag hchg hprop horb
  refine ⟨?_, ?_, ?_⟩
  · by_cases hpark : plungeNodeToQueue ctx rest (plungeNodeScore ctx top)
        = true
    · simp only [backtrackPlungeFlipStep, hprune, Bool.false_eq_true,
        if_false, hpark, if_true, flipDomain2_backtrackDom,
        domain_clear_flag_eq s.localdom hflag,
        HighsDomainModel.getReducedDomainChangeStack,
        flipNodeBranching_lower_bound, flipNodeBranching_estimate]
    · rw [Bool.not_eq_true] at hpark
      simp only [backtrackPlungeFlipStep, hprune, Bool.false_eq_true,
        if_false, hpark]
      constructor
      · intro h
        exact absurd (congrArg List.length h) (by simp)
      · intro h
        exact absurd h (by simp [hpark])
  · intro hpark
    simp only [backtrackPlungeFlipStep, hprune, Bool.false_eq_true, if_false,
      hpark]
    exact ⟨_, rfl, trivial⟩
  · intro q
    unfold plungeNodeToQueue
    cases hf : rest.find? (fun nd => nd.opensubtrees != 0) with
    | none => simp
    | some anc => simp [hf]

theorem plunge_park_iff_witness :
    (optGtOpt c6Top.lower_bound (getCutoffBound c6Ctx) = false) ∧
    (plungeNodeToQueue c6Ctx [c6Anc1, c6Anc2]
        (plungeNodeScore c6Ctx c6Top) = false →
      ∃ child,
        (backtrackPlungeFlipStep c6Ctx c6State c6Top [c6Anc1, c6Anc2]
            {}).1.nodestack =
          child :: flipNodeBranching c6Top :: [c6Anc1, c6Anc2] ∧
        (backtrackPlungeFlipStep c6Ctx c6State c6Top [c6Anc1, c6Anc2]
            {}).1.queue = c6State.queue) :=
  ⟨rfl, (plunge_park_iff c6Ctx c6State c6Top [c6Anc1, c6Anc2] {} rfl rfl rfl
    rfl rfl).2.1⟩

theorem flipNodeBranching_opensubtrees (n : NodeData) :
    (flipNodeBranching n).opensubtrees = 0 := by
  simp only [flipNodeBranching]
  split <;> split <;> rfl

theorem finalizeEval_leaf (t s : SearchState) (res : NodeResult)
    (hres : res ≠ NodeResult.kOpen) (htw : t.treeweight = s.treeweight)
    (hne : t.nodestack ≠ [])
    (hdepth : getCurrentDepth t = getCurrentDepth s) :
    (finalizeEval t res).1.treeweight =
      s.treeweight + halfPow (getCurrentDepth s - 1) ∧
    ((finalizeEval t res).1.nodestack.head?.map (fun f => f.opensubtrees)) =
      some 0 := by
  cases hstack : t.nodestack with
  | nil => exact absurd hstack hne
  | cons c rest =>
      constructor
      · simp [finalizeEval, hres, hstack, htw, hdepth]
      · simp [finalizeEval, hres, hstack]

theorem evaluateNode_prune_accounting (ctx : SearchContext)
    (orc : ℕ → EvalIterOracle) :
    ∀ (fuel k : ℕ) (s : SearchState),
      (evaluateNodeGo ctx orc k fuel s).2 ≠ NodeResult.kOpen →
      (evaluateNodeGo ctx orc k fuel s).1.treeweight =
        s.treeweight + halfPow (getCurrentDepth s - 1) ∧
      ((evaluateNodeGo ctx orc k fuel s).1.nodestack.head?.map
        (fun f => f.opensubtrees)) = some 0 := by
  intro fuel
  induction fuel with
  | zero =>
      intro k s h
      exact absurd rfl h
  | succ n ih =>
      intro k s
      cases hns : s.nodestack with
      | nil => simp [evaluateNodeGo, hns]
      | cons top rest =>
          rw [evaluateNodeGo_cons ctx orc k n top rest s hns]
          simp only [evaluateNodeBody]
          repeat' split
          all_goals intro h
          all_goals first
            | exact absurd rfl h
            | (have hrec := ih (k + 1) _ h
               simpa [evalLeafRC, evalS2, evalS1, evalS0, getCurrentDepth,
                 hns] using hrec)
            | (refine finalizeEval_leaf _ s _ ?_ ?_ ?_ ?_ <;>
               simp [evalLeafInf1, evalLeafInf2, evalLeafPF, evalLeafLB,
                 evalLeafRC, evalLeafBE, evalLeafErr, evalS0, evalS1,
                 evalS2, getCurrentDepth, hns])

/-- Claim C7: every pruning of a subtree closes the frame and adds exactly the
half-power of the pruned subtree's depth to the local tree weight —
`evaluateNode` returning a non-open result closes the current frame and
adds `0.5 ^ (getCurrentDepth - 1)`, a flipped sibling pruned during
backtracking leaves the flipped frame closed and adds
`0.5 ^ getCurrentDepth` (the pruned sibling's depth); and
`flushStatistics` adds the accumulated local tree weight into the global
pruned-tree-weight counter and zeroes the local value. -/
theorem pruning_treeweight_accounting (ctx : SearchContext) :
    (∀ (orc : ℕ → EvalIterOracle) (fuel : ℕ) (s : SearchState),
      (evaluateNode ctx orc fuel s).2 ≠ NodeResult.kOpen →
      (evaluateNode ctx orc fuel s).1.treeweight =
        s.treeweight + halfPow (getCurrentDepth s - 1) ∧
      ((evaluateNode ctx orc fuel s).1.nodestack.head?.map
        (fun f => f.opensubtrees)) = some 0) ∧
    (∀ (s : SearchState) (top : NodeData) (rest : List NodeData)
        (o : BacktrackIterOracle),
      (backtrackFlipStep ctx s top rest o).2 = true →
      (backtrackFlipStep ctx s top rest o).1.treeweight =
        s.treeweight + halfPow (getCurrentDepth s) ∧
      ((backtrackFlipStep ctx s top rest o).1.nodestack.head?.map
        (fun f => f.opensubtrees)) = some 0) ∧
    (∀ s : SearchState,
      (flushStatistics s).mipPrunedTreeweight =
        s.mipPrunedTreeweight + s.treeweight ∧
      (flushStatistics s).treeweight = 0) := by
  refine ⟨?_, ?_, ?_⟩
  · intro orc fuel s h
    exact evaluateNode_prune_accounting ctx orc fuel 0 s h
  · intro s top rest o h
    simp only [backtrackFlipStep] at h ⊢
    by_cases hc : flipPrune2 ctx s.localdom (flipNodeBranching top) o = true
    · rw [if_pos hc]
      exact ⟨rfl, by simp [flipNodeBranching_opensubtrees]⟩
    · rw [if_neg hc] at h
      exact absurd h (by simp)
  · intro s
    exact ⟨rfl, rfl⟩

def c7State : SearchState := { nodestack := [{}] }

def c7Oracle : EvalIterOracle := { prop := { infeasible := true } }

theorem pruning_treeweight_accounting_witness :
    ((evaluateNode {} (fun _ => c7Oracle) 1 c7State).2 ≠
      NodeResult.kOpen) ∧
    ((evaluateNode {} (fun _ => c7Oracle) 1 c7State).1.treeweight =
      c7State.treeweight + halfPow (getCurrentDepth c7State - 1)) :=
  ⟨by decide,
    ((pruning_treeweight_accounting {}).1 (fun _ => c7Oracle) 1 c7State
      (by decide)).1⟩

theorem backtrackPopStep_queue (s : SearchState) (top : NodeData)
    (rest : List NodeData) (o : BacktrackIterOracle) :
    (backtrackPopStep s top rest o).1.queue = s.queue := by
  cases rest with
  | nil => rfl
  | cons a b =>
      simp only [backtrackPopStep]
      repeat' split
      all_goals rfl

theorem backtrackFlipStep_queue (ctx : SearchContext) (s : SearchState)
    (top : NodeData) (rest : List NodeData) (o : BacktrackIterOracle) :
    (backtrackFlipStep ctx s top rest o).1.queue = s.queue := by
  simp only [backtrackFlipStep]
  split
  all_goals rfl

theorem backtrackLoop_queue (ctx : SearchContext)
    (orc : ℕ → BacktrackIterOracle) :
    ∀ (fuel k : ℕ) (s : SearchState),
      (backtrackLoop ctx orc k fuel s).1.queue = s.queue := by
  intro fuel
  induction fuel with
  | zero => intro k s; rfl
  | succ n ih =>
      intro k s
      cases hns : s.nodestack with
      | nil => simp [backtrackLoop, hns]
      | cons top rest =>
          simp only [backtrackLoop, hns]
          repeat' split
          all_goals first
            | (rw [ih (k + 1)]
               first
                 | exact backtrackPopStep_queue s top rest (orc k)
                 | exact backtrackFlipStep_queue ctx s top rest (orc k))
            | exact backtrackPopStep_queue s top rest (orc k)
            | exact backtrackFlipStep_queue ctx s top rest (orc k)

theorem backtrack_queue (ctx : SearchContext)
    (orc : ℕ → BacktrackIterOracle) (s : SearchState) :
    (backtrack ctx orc s).1.queue = s.queue := by
  simp only [backtrack]
  split
  · rfl
  · exact backtrackLoop_queue ctx orc (2 * s.nodestack.length + 1) 0 s

/-- Claim C9: for an open current frame that survives the prune tests
(bound not above the cutoff, repropagation feasible), flushing it with
`currentNodeToQueue` emits exactly one queue entry carrying the frame's
lower bound, estimate, the current logical depth and the reduced
domain-change stack with its branching positions, and re-seating that entry
with `installNode` on an empty stack restores the same tuple: the seated
frame carries the stored lower bound and estimate, the logical depth equals
the stored depth, and the replayed domain reduces back to the stored stack
and branching positions. -/
theorem queue_install_round_trip (ctx : SearchContext)
    (prop : PropagationOutcome) (orc : ℕ → BacktrackIterOracle)
    (s : SearchState) (top : NodeData) (rest : List NodeData)
    (t : SearchState)
    (hns : s.nodestack = top :: rest)
    (_hopen : top.opensubtrees ≠ 0)
    (hnp1 : optGtOpt top.lower_bound (getCutoffBound ctx) = false)
    (hnp2 : (s.localdom.pushInferences prop.inferences
        prop.infeasible).infeasibleFlag = false)
    (ht : t.nodestack = []) :
    ∃ node : OpenNode,
      (currentNodeToQueue ctx prop orc s).queue = s.queue ++ [node] ∧
      node.lower_bound = top.lower_bound ∧
      node.estimate = top.estimate ∧
      node.depth = getCurrentDepth s ∧
      (node.domchgstack, node.branchings) =
        (s.localdom.pushInferences prop.inferences
          prop.infeasible).getReducedDomainChangeStack ∧
      ((installNode ctx t node).nodestack.head?.map
          (fun f => (f.lower_bound, f.estimate))) =
        some (top.lower_bound, top.estimate) ∧
      getCurrentDepth (installNode ctx t node) = node.depth ∧
      (installNode ctx t node).localdom.getReducedDomainChangeStack =
        (node.domchgstack, node.branchings) := by
  refine ⟨⟨(s.localdom.pushInferences prop.inferences
        prop.infeasible).domchgStack,
      (s.localdom.pushInferences prop.inferences
        prop.infeasible).branchPos.reverse,
      top.lower_bound, top.estimate, getCurrentDepth s⟩,
    ?_, rfl, rfl, rfl, rfl, rfl, ?_, ?_⟩
  · simp [currentNodeToQueue, hns, hnp1, hnp2, backtrack_queue,
      HighsDomainModel.getReducedDomainChangeStack]
  · simp [installNode, getCurrentDepth, ht]
  · simp [installNode, HighsDomainModel.setDomainChangeStack,
      HighsDomainModel.getReducedDomainChangeStack]

def c9Top : NodeData := {}

def c9S : SearchState := { nodestack := [c9Top] }

theorem queue_install_round_trip_witness :
    (c9S.nodestack = [c9Top] ∧ c9Top.opensubtrees ≠ 0 ∧
      optGtOpt c9Top.lower_bound (getCutoffBound {}) = false ∧
      (c9S.localdom.pushInferences ({} : PropagationOutcome).inferences
        ({} : PropagationOutcome).infeasible).infeasibleFlag = false) ∧
    ∃ node : OpenNode,
      (currentNodeToQueue {} {} (fun _ => {}) c9S).queue =
        c9S.queue ++ [node] ∧
      node.lower_bound = c9Top.lower_bound ∧
      node.estimate = c9Top.estimate ∧
      node.depth = getCurrentDepth c9S ∧
      (node.domchgstack, node.branchings) =
        (c9S.localdom.pushInferences ({} : PropagationOutcome).inferences
          ({} : PropagationOutcome).infeasible).getReducedDomainChangeStack ∧
      ((installNode {} ({} : SearchState) node).nodestack.head?.map
          (fun f => (f.lower_bound, f.estimate))) =
        some (c9Top.lower_bound, c9Top.estimate) ∧
      getCurrentDepth (installNode {} ({} : SearchState) node) =
        node.depth ∧
      HighsDomainModel.getReducedDomainChangeStack
          (installNode {} ({} : SearchState) node).localdom =
        (node.domchgstack, node.branchings) :=
  ⟨⟨rfl, by decide, rfl, rfl⟩,
    queue_install_round_trip {} {} (fun _ => {}) c9S c9Top [] {} rfl
      (by decide) rfl rfl rfl⟩

/-- A node-stack operation of the search driver, as listed by the
specification: root creation, the three branching entry points, the three
backtracking variants and the queue re-seat. -/
inductive SearchStep where
  | createNew
  | branchDown (col : ℤ) (newub branchpoint : ℚ)
  | branchUp (col : ℤ) (newlb branchpoint : ℚ)
  | branchSelect (dc : HighsDomainChange) (branchpoint : ℚ)
  | backtrackOp (orc : ℕ → BacktrackIterOracle)
  | plungeOp (orc : ℕ → BacktrackIterOracle)
  | untilDepthOp (targetDepth : ℤ)
  | installOp (node : OpenNode)

/-- Apply one node-stack operation. -/
def applyStep (ctx : SearchContext) (s : SearchState) :
    SearchStep → SearchState
  | SearchStep.createNew => createNewNode s
  | SearchStep.branchDown col newub bp => branchDownwards ctx s col newub bp
  | SearchStep.branchUp col newlb bp => branchUpwards ctx s col newlb bp
  | SearchStep.branchSelect dc bp => branchWithSelectedDecision ctx s dc bp
  | SearchStep.backtrackOp orc => (backtrack ctx orc s).1
  | SearchStep.plungeOp orc => (backtrackPlunge ctx orc s).1
  | SearchStep.untilDepthOp td => (backtrackUntilDepth ctx td s).1
  | SearchStep.installOp node => installNode ctx s node

/-- Call discipline of the driver: a root is created and a queue entry is
re-seated only on an empty node stack (the dive loop fully backtracks
before `installNode`); the remaining operations are called freely. -/
def LegalStep (s : SearchState) : SearchStep → Prop
  | SearchStep.createNew => s.nodestack = []
  | SearchStep.installOp _ => s.nodestack = []
  | _ => True

/-- A sequence of operations each legal in the state it is applied to. -/
def LegalRun (ctx : SearchContext) : SearchState → List SearchStep → Prop
  | _, [] => True
  | s, st :: l => LegalStep s st ∧ LegalRun ctx (applyStep ctx s st) l

/-- Apply a sequence of node-stack operations. -/
def applySteps (ctx : SearchContext) (s : SearchState)
    (steps : List SearchStep) : SearchState :=
  steps.foldl (applyStep ctx) s

/-- Adjacent monotonicity of `domgchgStackPos` down the node stack (the stack
is kept top-first): each frame's position is at most its child's, strictly
below it when the frame is not the root. -/
def posChain : List NodeData → Prop
  | [] => True
  | [_] => True
  | a :: b :: l =>
      b.domgchgStackPos ≤ a.domgchgStackPos ∧
      (l ≠ [] → b.domgchgStackPos < a.domgchgStackPos) ∧
      posChain (b :: l)

/-- Each frame's path branching is recorded on the domain-change stack: for
every adjacent (child, parent) pair the domain change at the child's
`domgchgStackPos` is exactly the parent's branching decision. -/
def branchChangesMatch (stack : List HighsDomainChange) :
    List NodeData → Prop
  | [] => True
  | [_] => True
  | a :: b :: l =>
      stack.get? a.domgchgStackPos = some b.branchingdecision ∧
      branchChangesMatch stack (b :: l)

/-- Invariant tying the node stack to the local domain: the branching
positions of the domain are the stack positions of the non-root frames (over
some replayed base), every frame position is within the domain-change stack,
positions are adjacent-monotone, and each child position holds the parent's
branching decision. -/
structure StackDomInv (ns : List NodeData) (d : HighsDomainModel) : Prop where
  align : ∃ base, d.branchPos =
    ns.dropLast.map (fun f => f.domgchgStackPos) ++ base
  frameBound : ∀ f ∈ ns, f.domgchgStackPos ≤ d.domchgStack.length
  chain : posChain ns
  decs : branchChangesMatch d.domchgStack ns

theorem get?_append_of_some {l t : List HighsDomainChange} {i : ℕ}
    {x : HighsDomainChange} (h : l.get? i = some x) :
    (l ++ t).get? i = some x := by
  rw [List.get?_append (List.get?_eq_some.mp h).1]
  exact h

theorem get?_take_of_some {l : List HighsDomainChange} {i p : ℕ}
    {x : HighsDomainChange} (hip : i < p) (h : l.get? i = some x) :
    (l.take p).get? i = some x := by
  rw [List.get?_take hip]
  exact h

theorem posChain_le : ∀ (a : NodeData) (l : List NodeData),
    posChain (a :: l) → ∀ f ∈ l, f.domgchgStackPos ≤ a.domgchgStackPos
  | _, [], _, f, hf => absurd hf (by simp)
  | a, b :: m, h, f, hf => by
      rcases List.mem_cons.mp hf with rfl | hf2
      · exact h.1
      · exact le_trans (posChain_le b m h.2.2 f hf2) h.1

theorem posChain_congr_head {a a' : NodeData}
    (hpos : a'.domgchgStackPos = a.domgchgStackPos) :
    ∀ l, posChain (a :: l) → posChain (a' :: l)
  | [], _ => trivial
  | b :: m, h =>
      ⟨by rw [hpos]; exact h.1, fun hm => by rw [hpos]; exact h.2.1 hm,
        h.2.2⟩

theorem branchChangesMatch_congr_head (stack : List HighsDomainChange)
    {a a' : NodeData} (hpos : a'.domgchgStackPos = a.domgchgStackPos) :
    ∀ l, branchChangesMatch stack (a :: l) →
      branchChangesMatch stack (a' :: l)
  | [], _ => trivial
  | b :: m, h => ⟨by rw [hpos]; exact h.1, h.2⟩

theorem branchChangesMatch_append (stack extra : List HighsDomainChange) :
    ∀ l, branchChangesMatch stack l → branchChangesMatch (stack ++ extra) l
  | [], _ => trivial
  | [_], _ => trivial
  | _ :: b :: m, h =>
      ⟨get?_append_of_some h.1,
        branchChangesMatch_append stack extra (b :: m) h.2⟩

theorem branchChangesMatch_take (stack : List HighsDomainChange) (p : ℕ) :
    ∀ l, branchChangesMatch stack l →
      (∀ f ∈ l, f.domgchgStackPos < p) →
      branchChangesMatch (stack.take p) l
  | [], _, _ => trivial
  | [_], _, _ => trivial
  | a :: b :: m, h, hb =>
      ⟨get?_take_of_some (hb a (by simp)) h.1,
        branchChangesMatch_take stack p (b :: m) h.2
          (fun f hf => hb f (List.mem_cons_of_mem a hf))⟩

theorem stackDomInv_nil (d : HighsDomainModel) : StackDomInv [] d :=
  ⟨⟨d.branchPos, by simp⟩, by simp, trivial, trivial⟩

theorem stackDomInv_single {f : NodeData} {d : HighsDomainModel}
    (h : f.domgchgStackPos ≤ d.domchgStack.length) : StackDomInv [f] d :=
  ⟨⟨d.branchPos, by simp⟩, by simpa using h, trivial, trivial⟩

theorem stackDomInv_replace_head {a a' : NodeData} {l : List NodeData}
    {d : HighsDomainModel}
    (hpos : a'.domgchgStackPos = a.domgchgStackPos)
    (h : StackDomInv (a :: l) d) : StackDomInv (a' :: l) d := by
  refine ⟨?_, ?_, posChain_congr_head hpos l h.chain,
    branchChangesMatch_congr_head d.domchgStack hpos l h.decs⟩
  · obtain ⟨base, hb⟩ := h.align
    refine ⟨base, ?_⟩
    cases l with
    | nil => simpa using hb
    | cons b m =>
        rw [hb]
        simp [hpos]
  · intro f hf
    rcases List.mem_cons.mp hf with rfl | hf2
    · rw [hpos]
      exact h.frameBound a (by simp)
    · exact h.frameBound f (List.mem_cons_of_mem a hf2)

theorem stackDomInv_restore {d d2 : HighsDomainModel}
    (hs : d2.domchgStack = d.domchgStack)
    (hbp : d2.branchPos = d.branchPos)
    {ns : List NodeData} (h : StackDomInv ns d) : StackDomInv ns d2 := by
  refine ⟨?_, ?_, h.chain, ?_⟩
  · rw [hbp]
    exact h.align
  · intro f hf
    rw [hs]
    exact h.frameBound f hf
  · rw [hs]
    exact h.decs

theorem stackDomInv_pushInferences {ns : List NodeData}
    {d : HighsDomainModel} (infs : List HighsDomainChange) (b : Bool)
    (h : StackDomInv ns d) : StackDomInv ns (d.pushInferences infs b) := by
  refine ⟨?_, ?_, h.chain, ?_⟩
  · obtain ⟨base, hb⟩ := h.align
    exact ⟨base, by simpa [HighsDomainModel.pushInferences] using hb⟩
  · intro f hf
    simp only [HighsDomainModel.pushInferences, List.length_append]
    exact le_trans (h.frameBound f hf) (Nat.le_add_right _ _)
  · exact branchChangesMatch_append d.domchgStack infs ns h.decs

theorem stackDomInv_pushChild {d d' : HighsDomainModel}
    {cur child : NodeData} {rest : List NodeData}
    (hinv : StackDomInv (cur :: rest) d)
    (hst : ∃ extra, d'.domchgStack =
      d.domchgStack ++ [cur.branchingdecision] ++ extra)
    (hbp : d'.branchPos = d.domchgStack.length :: d.branchPos)
    (hchild : child.domgchgStackPos = d.domchgStack.length) :
    StackDomInv (child :: cur :: rest) d' := by
  obtain ⟨extra, hstack⟩ := hst
  have hcur_le : cur.domgchgStackPos ≤ d.domchgStack.length :=
    hinv.frameBound cur (by simp)
  have hcur_lt : rest ≠ [] →
      cur.domgchgStackPos < d.domchgStack.length := by
    intro hr
    cases rest with
    | nil => exact absurd rfl hr
    | cons b m => exact (List.get?_eq_some.mp hinv.decs.1).1
  refine ⟨?_, ?_, ?_, ?_⟩
  · obtain ⟨base, hb⟩ := hinv.align
    refine ⟨base, ?_⟩
    rw [hbp, hb, ← hchild]
    cases rest <;> simp
  · have hlen : d.domchgStack.length ≤ d'.domchgStack.length := by
      rw [hstack]
      simp
    intro f hf
    rcases List.mem_cons.mp hf with rfl | hf2
    · rw [hchild]
      exact hlen
    · exact le_trans
        (hinv.frameBound f (by simpa using List.mem_cons.mp hf2)) hlen
  · refine ⟨?_, ?_, hinv.chain⟩
    · rw [hchild]
      exact hcur_le
    · intro hm
      rw [hchild]
      exact hcur_lt hm
  · refine ⟨?_, ?_⟩
    · rw [hstack, hchild]
      exact get?_append_of_some (List.get?_concat_length _ _)
    · rw [hstack]
      exact branchChangesMatch_append _ extra _
        (branchChangesMatch_append _ [cur.branchingdecision] _ hinv.decs)

theorem stackDomInv_pop {top newtop : NodeData} {rest2 : List NodeData}
    {d : HighsDomainModel}
    (hinv : StackDomInv (top :: newtop :: rest2) d) :
    StackDomInv (newtop :: rest2) d.backtrackDom := by
  obtain ⟨base, hb⟩ := hinv.align
  have hb2 : d.branchPos = top.domgchgStackPos ::
      ((newtop :: rest2).dropLast.map (fun f => f.domgchgStackPos) ++
        base) := by
    simpa using hb
  have hbd : d.backtrackDom = { d with
      domchgStack := d.domchgStack.take top.domgchgStackPos,
      branchPos :=
        (newtop :: rest2).dropLast.map (fun f => f.domgchgStackPos) ++ base,
      infeasibleFlag := false } := by
    simp only [HighsDomainModel.backtrackDom, hb2]
  refine ⟨⟨base, by rw [hbd]⟩, ?_, hinv.chain.2.2, ?_⟩
  · intro f hf
    rw [hbd]
    simp only [List.length_take]
    exact le_min (posChain_le top (newtop :: rest2) hinv.chain f hf)
      (hinv.frameBound f (List.mem_cons_of_mem top hf))
  · rw [hbd]
    cases rest2 with
    | nil => trivial
    | cons c m =>
        have h1 : newtop.domgchgStackPos < top.domgchgStackPos :=
          hinv.chain.2.1 (by simp)
        refine branchChangesMatch_take _ _ _ hinv.decs.2 ?_
        intro f hf
        rcases List.mem_cons.mp hf with rfl | hf2
        · exact h1
        · exact lt_of_le_of_lt
            (posChain_le newtop (c :: m) hinv.chain.2.2 f hf2) h1

theorem stackDomInv_close_head {a : NodeData} {l : List NodeData}
    {d : HighsDomainModel} (h : StackDomInv (a :: l) d) :
    StackDomInv ({ a with opensubtrees := 0 } :: l) d :=
  stackDomInv_replace_head
    (show ({ a with opensubtrees := 0 } : NodeData).domgchgStackPos =
      a.domgchgStackPos from rfl) h

theorem stackDomInv_clear_flag {d : HighsDomainModel}
    {ns : List NodeData} (h : StackDomInv ns d) :
    StackDomInv ns { d with infeasibleFlag := false } :=
  stackDomInv_restore
    (show ({ d with infeasibleFlag := false } :
      HighsDomainModel).domchgStack = d.domchgStack from rfl) rfl h

theorem flipNodeBranching_pos (n : NodeData) :
    (flipNodeBranching n).domgchgStackPos = n.domgchgStackPos := by
  simp only [flipNodeBranching]
  split <;> split <;> rfl

theorem flipDomain0_stack (d : HighsDomainModel) (cn : NodeData)
    (o : BacktrackIterOracle) :
    (flipDomain0 d cn o).domchgStack =
      d.domchgStack ++ [cn.branchingdecision] := rfl

theorem flipDomain0_branchPos (d : HighsDomainModel) (cn : NodeData)
    (o : BacktrackIterOracle) :
    (flipDomain0 d cn o).branchPos =
      d.domchgStack.length :: d.branchPos := rfl

theorem flipDomain1_branchPos (ctx : SearchContext) (d : HighsDomainModel)
    (cn : NodeData) (o : BacktrackIterOracle) :
    (flipDomain1 ctx d cn o).branchPos =
      d.domchgStack.length :: d.branchPos := by
  simp only [flipDomain1]
  split <;>
    simp [HighsDomainModel.pushInferences, flipDomain0_branchPos]

theorem flipDomain1_stack_ext (ctx : SearchContext)
    (d : HighsDomainModel) (cn : NodeData) (o : BacktrackIterOracle) :
    ∃ extra, (flipDomain1 ctx d cn o).domchgStack =
      d.domchgStack ++ [cn.branchingdecision] ++ extra := by
  simp only [flipDomain1]
  split
  · exact ⟨o.flipProp.inferences,
      by simp [HighsDomainModel.pushInferences, flipDomain0_stack]⟩
  · exact ⟨[], by simp [flipDomain0_stack]⟩

theorem flipDomain2_branchPos (ctx : SearchContext) (d : HighsDomainModel)
    (cn : NodeData) (o : BacktrackIterOracle) :
    (flipDomain2 ctx d cn o).branchPos =
      d.domchgStack.length :: d.branchPos := by
  simp only [flipDomain2]
  split <;>
    simp [HighsDomainModel.pushInferences, flipDomain1_branchPos]

theorem flipDomain2_stack_ext (ctx : SearchContext)
    (d : HighsDomainModel) (cn : NodeData) (o : BacktrackIterOracle) :
    ∃ extra, (flipDomain2 ctx d cn o).domchgStack =
      d.domchgStack ++ [cn.branchingdecision] ++ extra := by
  obtain ⟨e, he⟩ := flipDomain1_stack_ext ctx d cn o
  simp only [flipDomain2]
  split
  · exact ⟨e ++ o.orbitalInfs,
      by simp [HighsDomainModel.pushInferences, he]⟩
  · exact ⟨e, he⟩

theorem backtrackPopStep_inv {s : SearchState} {top : NodeData}
    {rest : List NodeData} {o : BacktrackIterOracle}
    (hinv : StackDomInv (top :: rest) s.localdom) :
    StackDomInv (backtrackPopStep s top rest o).1.nodestack
      (backtrackPopStep s top rest o).1.localdom := by
  cases rest with
  | nil =>
      simp only [backtrackPopStep]
      exact stackDomInv_nil _
  | cons newtop rest2 =>
      have hpop := stackDomInv_pop hinv
      simp only [backtrackPopStep]
      repeat' split
      all_goals first
        | exact stackDomInv_close_head
            (stackDomInv_pushInferences _ _
              (stackDomInv_pushInferences _ _ hpop))
        | exact stackDomInv_close_head
            (stackDomInv_pushInferences _ _ hpop)
        | exact stackDomInv_pushInferences _ _
            (stackDomInv_pushInferences _ _ hpop)
        | exact stackDomInv_pushInferences _ _ hpop
        | exact hpop

theorem backtrackFlipStep_inv {ctx : SearchContext} {s : SearchState}
    {top : NodeData} {rest : List NodeData} {o : BacktrackIterOracle}
    (hinv : StackDomInv (top :: rest) s.localdom) :
    StackDomInv (backtrackFlipStep ctx s top rest o).1.nodestack
      (backtrackFlipStep ctx s top rest o).1.localdom := by
  have hinv2 : StackDomInv (flipNodeBranching top :: rest) s.localdom :=
    stackDomInv_replace_head (flipNodeBranching_pos top) hinv
  simp only [backtrackFlipStep]
  split
  · rw [flipDomain2_backtrackDom]
    exact stackDomInv_clear_flag hinv2
  · exact stackDomInv_pushChild hinv2
      (flipDomain2_stack_ext ctx s.localdom (flipNodeBranching top) o)
      (flipDomain2_branchPos ctx s.localdom (flipNodeBranching top) o)
      rfl

theorem backtrackPlungeFlipStep_inv {ctx : SearchContext} {s : SearchState}
    {top : NodeData} {rest : List NodeData} {o : BacktrackIterOracle}
    (hinv : StackDomInv (top :: rest) s.localdom) :
    StackDomInv (backtrackPlungeFlipStep ctx s top rest o).1.nodestack
      (backtrackPlungeFlipStep ctx s top rest o).1.localdom := by
  have hinv2 : StackDomInv (flipNodeBranching top :: rest) s.localdom :=
    stackDomInv_replace_head (flipNodeBranching_pos top) hinv
  simp only [backtrackPlungeFlipStep]
  split
  · rw [flipDomain2_backtrackDom]
    exact stackDomInv_clear_flag hinv2
  · split
    · rw [flipDomain2_backtrackDom]
      exact stackDomInv_clear_flag hinv2
    · exact stackDomInv_pushChild hinv2
        (flipDomain2_stack_ext ctx s.localdom (flipNodeBranching top) o)
        (flipDomain2_branchPos ctx s.localdom (flipNodeBranching top) o)
        rfl

theorem backtrackLoop_inv (ctx : SearchContext)
    (orc : ℕ → BacktrackIterOracle) :
    ∀ (fuel k : ℕ) (s : SearchState),
      StackDomInv s.nodestack s.localdom →
      StackDomInv (backtrackLoop ctx orc k fuel s).1.nodestack
        (backtrackLoop ctx orc k fuel s).1.localdom := by
  intro fuel
  induction fuel with
  | zero => intro k s h; exact h
  | succ n ih =>
      intro k s h
      cases hns : s.nodestack with
      | nil =>
          simp only [backtrackLoop, hns]
          exact stackDomInv_nil _
      | cons top rest =>
          rw [hns] at h
          simp only [backtrackLoop, hns]
          repeat' split
          all_goals first
            | exact ih (k + 1) _ (backtrackPopStep_inv h)
            | exact ih (k + 1) _ (backtrackFlipStep_inv h)
            | exact backtrackPopStep_inv h
            | exact backtrackFlipStep_inv h

theorem backtrack_inv (ctx : SearchContext)
    (orc : ℕ → BacktrackIterOracle) (s : SearchState)
    (h : StackDomInv s.nodestack s.localdom) :
    StackDomInv (backtrack ctx orc s).1.nodestack
      (backtrack ctx orc s).1.localdom := by
  simp only [backtrack]
  split
  · exact h
  · exact backtrackLoop_inv ctx orc (2 * s.nodestack.length + 1) 0 s h

theorem backtrackPlungeLoop_inv (ctx : SearchContext)
    (orc : ℕ → BacktrackIterOracle) :
    ∀ (fuel k : ℕ) (s : SearchState),
      StackDomInv s.nodestack s.localdom →
      StackDomInv (backtrackPlungeLoop ctx orc k fuel s).1.nodestack
        (backtrackPlungeLoop ctx orc k fuel s).1.localdom := by
  intro fuel
  induction fuel with
  | zero => intro k s h; exact h
  | succ n ih =>
      intro k s h
      cases hns : s.nodestack with
      | nil =>
          simp only [backtrackPlungeLoop, hns]
          exact stackDomInv_nil _
      | cons top rest =>
          rw [hns] at h
          simp only [backtrackPlungeLoop, hns]
          repeat' split
          all_goals first
            | exact ih (k + 1) _ (backtrackPopStep_inv h)
            | exact ih (k + 1) _ (backtrackPlungeFlipStep_inv h)
            | exact backtrackPopStep_inv h
            | exact backtrackPlungeFlipStep_inv h

theorem backtrackPlunge_inv (ctx : SearchContext)
    (orc : ℕ → BacktrackIterOracle) (s : SearchState)
    (h : StackDomInv s.nodestack s.localdom) :
    StackDomInv (backtrackPlunge ctx orc s).1.nodestack
      (backtrackPlunge ctx orc s).1.localdom := by
  simp only [backtrackPlunge]
  split
  · exact h
  · exact backtrackPlungeLoop_inv ctx orc (2 * s.nodestack.length + 1) 0 s h

theorem backtrackUntilDepthLoop_inv (ctx : SearchContext) (td : ℤ) :
    ∀ (fuel : ℕ) (s : SearchState),
      StackDomInv s.nodestack s.localdom →
      StackDomInv (backtrackUntilDepthLoop ctx td fuel s).1.nodestack
        (backtrackUntilDepthLoop ctx td fuel s).1.localdom := by
  intro fuel
  induction fuel with
  | zero => intro s h; exact h
  | succ n ih =>
      intro s h
      cases hns : s.nodestack with
      | nil =>
          simp only [backtrackUntilDepthLoop, hns]
          exact stackDomInv_nil _
      | cons top rest =>
          rw [hns] at h
          simp only [backtrackUntilDepthLoop, hns]
          repeat' split
          all_goals first
            | exact stackDomInv_nil _
            | exact ih _ (stackDomInv_pop (stackDomInv_close_head h))
            | exact ih _ (stackDomInv_pop h)
            | exact stackDomInv_pushChild
                (stackDomInv_replace_head (flipNodeBranching_pos _)
                  (stackDomInv_close_head h))
                ⟨[], by simp [HighsDomainModel.changeBoundBranching]⟩
                rfl rfl
            | exact stackDomInv_pushChild
                (stackDomInv_replace_head (flipNodeBranching_pos _) h)
                ⟨[], by simp [HighsDomainModel.changeBoundBranching]⟩
                rfl rfl

theorem backtrackUntilDepth_inv (ctx : SearchContext) (td : ℤ)
    (s : SearchState) (h : StackDomInv s.nodestack s.localdom) :
    StackDomInv (backtrackUntilDepth ctx td s).1.nodestack
      (backtrackUntilDepth ctx td s).1.localdom := by
  simp only [backtrackUntilDepth]
  split
  · exact h
  · exact backtrackUntilDepthLoop_inv ctx td (s.nodestack.length + 1) s h

theorem pushChildFrame_inv {ctx : SearchContext} {s : SearchState}
    {cur : NodeData} {rest : List NodeData}
    (hinv : StackDomInv (cur :: rest) s.localdom) :
    StackDomInv (pushChildFrame ctx s cur rest).nodestack
      (pushChildFrame ctx s cur rest).localdom := by
  simp only [pushChildFrame]
  exact stackDomInv_pushChild
    (stackDomInv_replace_head
      (show ({ cur with opensubtrees := 1 } :
        NodeData).domgchgStackPos = cur.domgchgStackPos from rfl) hinv)
    ⟨[], by simp [HighsDomainModel.changeBoundBranching]⟩
    rfl rfl

theorem createNewNode_inv {s : SearchState} (hns : s.nodestack = []) :
    StackDomInv (createNewNode s).nodestack (createNewNode s).localdom := by
  simp only [createNewNode, hns]
  exact stackDomInv_single le_rfl

theorem installNode_inv {ctx : SearchContext} {s : SearchState}
    {node : OpenNode} (hns : s.nodestack = []) :
    StackDomInv (installNode ctx s node).nodestack
      (installNode ctx s node).localdom := by
  simp only [installNode, hns]
  exact stackDomInv_single (Nat.zero_le _)

theorem branchDownwards_inv {ctx : SearchContext} {s : SearchState}
    {col : ℤ} {newub bp : ℚ}
    (hinv : StackDomInv s.nodestack s.localdom) :
    StackDomInv (branchDownwards ctx s col newub bp).nodestack
      (branchDownwards ctx s col newub bp).localdom := by
  cases hns : s.nodestack with
  | nil =>
      rw [hns] at hinv
      simp only [branchDownwards, hns]
      exact stackDomInv_nil _
  | cons cur rest =>
      rw [hns] at hinv
      simp only [branchDownwards, hns]
      exact pushChildFrame_inv
        (stackDomInv_replace_head
          (show ({ cur with
              branching_point := bp,
              branchingdecision :=
                ⟨newub, col, HighsBoundType.kUpper⟩ } :
            NodeData).domgchgStackPos = cur.domgchgStackPos from rfl) hinv)

theorem branchUpwards_inv {ctx : SearchContext} {s : SearchState}
    {col : ℤ} {newlb bp : ℚ}
    (hinv : StackDomInv s.nodestack s.localdom) :
    StackDomInv (branchUpwards ctx s col newlb bp).nodestack
      (branchUpwards ctx s col newlb bp).localdom := by
  cases hns : s.nodestack with
  | nil =>
      rw [hns] at hinv
      simp only [branchUpwards, hns]
      exact stackDomInv_nil _
  | cons cur rest =>
      rw [hns] at hinv
      simp only [branchUpwards, hns]
      exact pushChildFrame_inv
        (stackDomInv_replace_head
          (show ({ cur with
              branching_point := bp,
              branchingdecision :=
                ⟨newlb, col, HighsBoundType.kLower⟩ } :
            NodeData).domgchgStackPos = cur.domgchgStackPos from rfl) hinv)

theorem branchWithSelectedDecision_inv {ctx : SearchContext}
    {s : SearchState} {dc : HighsDomainChange} {bp : ℚ}
    (hinv : StackDomInv s.nodestack s.localdom) :
    StackDomInv (branchWithSelectedDecision ctx s dc bp).nodestack
      (branchWithSelectedDecision ctx s dc bp).localdom := by
  cases hns : s.nodestack with
  | nil =>
      rw [hns] at hinv
      simp only [branchWithSelectedDecision, hns]
      exact stackDomInv_nil _
  | cons cur rest =>
      rw [hns] at hinv
      simp only [branchWithSelectedDecision, hns]
      exact pushChildFrame_inv
        (stackDomInv_replace_head
          (show ({ cur with
              branching_point := bp,
              branchingdecision := dc } :
            NodeData).domgchgStackPos = cur.domgchgStackPos from rfl) hinv)

theorem applyStep_inv (ctx : SearchContext) (s : SearchState)
    (st : SearchStep) (hleg : LegalStep s st)
    (hinv : StackDomInv s.nodestack s.localdom) :
    StackDomInv (applyStep ctx s st).nodestack
      (applyStep ctx s st).localdom := by
  cases st with
  | createNew => exact createNewNode_inv hleg
  | branchDown col u bp => exact branchDownwards_inv hinv
  | branchUp col l bp => exact branchUpwards_inv hinv
  | branchSelect dc bp => exact branchWithSelectedDecision_inv hinv
  | backtrackOp orc => exact backtrack_inv ctx orc s hinv
  | plungeOp orc => exact backtrackPlunge_inv ctx orc s hinv
  | untilDepthOp td => exact backtrackUntilDepth_inv ctx td s hinv
  | installOp node => exact installNode_inv hleg

theorem applySteps_inv (ctx : SearchContext) :
    ∀ (steps : List SearchStep) (s : SearchState),
      StackDomInv s.nodestack s.localdom → LegalRun ctx s steps →
      StackDomInv (applySteps ctx s steps).nodestack
        (applySteps ctx s steps).localdom
  | [], _, hinv, _ => hinv
  | st :: l, s, hinv, hrun =>
      applySteps_inv ctx l (applyStep ctx s st)
        (applyStep_inv ctx s st hrun.1 hinv) hrun.2

/-- Claim C8: after every legal sequence of node-stack operations
(`createNewNode`, the three branching entry points, the three backtracking
variants, `installNode`) started from a state satisfying the stack/domain
invariant, every pair of adjacent frames on the node stack has
monotone `domgchgStackPos` (the deeper frame's position is at least its
parent's), and each frame's path branching is recorded on the
domain-change stack: the change at each child frame's `domgchgStackPos` is
exactly its parent's branching decision. -/
theorem node_stack_invariant (ctx : SearchContext) (s0 : SearchState)
    (steps : List SearchStep)
    (hinv : StackDomInv s0.nodestack s0.localdom)
    (hrun : LegalRun ctx s0 steps) :
    posChain (applySteps ctx s0 steps).nodestack ∧
    branchChangesMatch (applySteps ctx s0 steps).localdom.domchgStack
      (applySteps ctx s0 steps).nodestack :=
  ⟨(applySteps_inv ctx steps s0 hinv hrun).chain,
    (applySteps_inv ctx steps s0 hinv hrun).decs⟩

def c8Run : List SearchStep :=
  [SearchStep.createNew, SearchStep.branchUp 0 1 (1/2),
   SearchStep.backtrackOp (fun _ => {})]

theorem node_stack_invariant_witness :
    (StackDomInv ({} : SearchState).nodestack
        ({} : SearchState).localdom ∧
      LegalRun {} ({} : SearchState) c8Run) ∧
    (posChain (applySteps {} ({} : SearchState) c8Run).nodestack ∧
      branchChangesMatch
        (applySteps {} ({} : SearchState) c8Run).localdom.domchgStack
        (applySteps {} ({} : SearchState) c8Run).nodestack) :=
  ⟨⟨⟨⟨[], rfl⟩, by simp, trivial, trivial⟩,
      ⟨rfl, trivial, trivial, trivial⟩⟩,
    node_stack_invariant {} {} c8Run
      ⟨⟨[], rfl⟩, by simp, trivial, trivial⟩
      ⟨rfl, trivial, trivial, trivial⟩⟩

end HighsSearchModel
